import Mathlib

/-!
Shallow embedding of the reactor-js core (src/core.ts, src/state.ts,
src/computed.ts, src/observer.ts, src/reactive-list.ts).

Values are modelled as `Int` (JS `===` on primitives is plain equality).
JS `Set` objects with insertion-order iteration are modelled as duplicate-free
`List`s: `Set.add` is `insertUnique` (append if absent), `Set.delete` is
`List.erase`.  Derivation functions (`computeFunc`) are deep-embedded as
`Expr`.  Side effects are made observable through an event log; exceptions
thrown by derivation functions propagate as `Except.error .fault` while the
mutations performed before the throw persist (as in JS).  Recursion through
the dependency graph is bounded by an explicit fuel parameter; exhaustion is
the distinguished error `.nofuel`.
-/

deriving instance DecidableEq for Except

namespace ReactorJS

/-- Identity of an observable node: a `State` (source) or a `Computed`. -/
inductive Obs where
  | src (i : Nat)
  | cmp (j : Nat)
deriving DecidableEq, Repr

/-- An entry of a cell's `listeners` set: either a plain callback (identified
by `lid`) or the wrapper lambda registered by `Observer.watch` (identified by
the observer index `k`). -/
inductive Listener where
  | plain (lid : Nat)
  | wrap (k : Nat)
deriving DecidableEq, Repr

/-- Deep embedding of a derivation function body.  `readStateValue` is the
`State` `value` getter (no tracking), `readStateUse` is `State.use()`
(tracked), `readComputedValue` is the `Computed` `value` getter (tracked,
then `peek`).  `throwErr` models a thrown exception. -/
inductive Expr where
  | const (n : Int)
  | readStateValue (i : Nat)
  | readStateUse (i : Nat)
  | readComputedValue (j : Nat)
  | add (a b : Expr)
  | mul (a b : Expr)
  | throwErr
deriving DecidableEq, Repr

/-- Models `State<T>` (src/state.ts): `_value`, `dependents`, `listeners`. -/
structure SCell where
  value : Int
  dependents : List Nat
  listeners : List Listener
deriving DecidableEq, Repr

/-- Models `Computed<T>` (src/computed.ts): `computeFunc`, `cachedValue`, `isDirty`,
`dependencies`, `dependents`, `listeners`, `_forceEager`. -/
structure CCell where
  expr : Expr
  cached : Int
  isDirty : Bool
  dependencies : List Obs
  dependents : List Nat
  listeners : List Listener
  forceEager : Bool
deriving DecidableEq, Repr

/-- Models `Observer` (src/observer.ts): the captured reactive reference, whether the
`callback` and `cleanup` fields are non-null, and `isDisposed`. -/
structure ObserverRec where
  target : Obs
  hasCallback : Bool
  hasCleanup : Bool
  isDisposed : Bool
deriving DecidableEq, Repr

/-- The whole mutable store: all `State` cells, all `Computed` cells, all
observers, plus the static `DependencyTracker` fields `dependentStack`
(head = top of stack) and `currentDependencies`. -/
structure World where
  states : List SCell
  comps : List CCell
  observers : List ObserverRec
  stack : List Nat
  curDeps : List Obs
deriving DecidableEq, Repr

def defaultS : SCell := ⟨0, [], []⟩

def defaultC : CCell := ⟨.const 0, 0, false, [], [], [], false⟩

def defaultObs : ObserverRec := ⟨.src 0, false, false, true⟩

def World.getS (w : World) (i : Nat) : SCell := w.states.getD i defaultS

def World.getC (w : World) (j : Nat) : CCell := w.comps.getD j defaultC

def World.getObserver (w : World) (k : Nat) : ObserverRec :=
  w.observers.getD k defaultObs

def World.updS (w : World) (i : Nat) (f : SCell → SCell) : World :=
  { w with states := w.states.set i (f (w.getS i)) }

def World.updC (w : World) (j : Nat) (f : CCell → CCell) : World :=
  { w with comps := w.comps.set j (f (w.getC j)) }

def World.updObserver (w : World) (k : Nat) (f : ObserverRec → ObserverRec) : World :=
  { w with observers := w.observers.set k (f (w.getObserver k)) }

/-- JS `Set.add`: append if not already a member (insertion order kept). -/
def insertUnique {α : Type} [DecidableEq α] (x : α) (xs : List α) : List α :=
  if x ∈ xs then xs else xs ++ [x]

/-- Models `observable.addDependent(dependent)`: `this.dependents.add(dependent)`. -/
def addDependent (o : Obs) (d : Nat) (w : World) : World :=
  match o with
  | .src i => w.updS i (fun s => { s with dependents := insertUnique d s.dependents })
  | .cmp j => w.updC j (fun c => { c with dependents := insertUnique d c.dependents })

/-- Models `observable.removeDependent(dependent)`: `this.dependents.delete(dependent)`. -/
def removeDependent (o : Obs) (d : Nat) (w : World) : World :=
  match o with
  | .src i => w.updS i (fun s => { s with dependents := s.dependents.erase d })
  | .cmp j => w.updC j (fun c => { c with dependents := c.dependents.erase d })

/-- Models `reactive.onChange(cb)`: `this.listeners.add(cb)`. -/
def addListener (o : Obs) (l : Listener) (w : World) : World :=
  match o with
  | .src i => w.updS i (fun s => { s with listeners := insertUnique l s.listeners })
  | .cmp j => w.updC j (fun c => { c with listeners := insertUnique l c.listeners })

/-- The unsubscribe closure returned by `onChange`: `this.listeners.delete(cb)`. -/
def removeListener (o : Obs) (l : Listener) (w : World) : World :=
  match o with
  | .src i => w.updS i (fun s => { s with listeners := s.listeners.erase l })
  | .cmp j => w.updC j (fun c => { c with listeners := c.listeners.erase l })

/-- Models `DependencyTracker.trackDependency(observable)` (src/core.ts lines
171-176): if the dependent stack is non-empty, add the observable to
`currentDependencies` and register the current top-of-stack dependent with
the observable. -/
def trackDependency (o : Obs) (w : World) : World :=
  match w.stack with
  | [] => w
  | d :: _ => addDependent o d { w with curDeps := insertUnique o w.curDeps }

/-- Models `Computed.clearDependencies` (src/computed.ts lines 130-135): remove this
cell as a dependent of each recorded dependency, then clear the set. -/
def clearDependencies (j : Nat) (w : World) : World :=
  let w1 := (w.getC j).dependencies.foldl (fun acc o => removeDependent o j acc) w
  w1.updC j (fun c => { c with dependencies := [] })

/-- Observable happenings, in order.  `stored` marks the assignment
`this._value = newValue` in `State.set`; `invalidateCall j` marks a call of
`Computed.invalidate` on cell `j` (logged at entry, before the dirty check);
`computeRun j` marks an invocation of cell `j`'s derivation function;
`listenerCalled`/`cbCalled` mark a plain change listener respectively an
`Observer.watch` callback being invoked with a value. -/
inductive Event where
  | stored (i : Nat) (v : Int)
  | invalidateCall (j : Nat)
  | computeRun (j : Nat)
  | listenerCalled (lid : Nat) (v : Int)
  | cbCalled (k : Nat) (v : Int)
deriving DecidableEq, Repr

inductive ErrKind where
  | fault
  | nofuel
deriving DecidableEq, Repr

/-- The mutually recursive operations of the core, reified so that one fuelled
interpreter `run` covers them all:
`eval` runs a derivation body; `readValue o` is the property read `o.value`
(for a `State`: the untracked getter, src/state.ts lines 21-23; for a
`Computed`: `trackDependency` then `peek`, src/computed.ts lines 29-35);
`peek`, `recompute`, `invalidate` are the `Computed` methods of those names;
`notify ds` is `Array.from(dependents).forEach(d => d.invalidate())`;
`fire ls v` is `listeners.forEach(l => l(v))`; `setState` is `State.set`. -/
inductive Call where
  | eval (e : Expr)
  | readValue (o : Obs)
  | peek (j : Nat)
  | recompute (j : Nat)
  | invalidate (j : Nat)
  | notify (ds : List Nat)
  | fire (ls : List Listener) (v : Int)
  | setState (i : Nat) (v : Int)
deriving DecidableEq, Repr

/-- The fuelled interpreter.  Each branch is the direct transcription of the
corresponding method; every recursive call spends one unit of fuel.  The
`recompute` branch inlines `DependencyTracker.track` (src/core.ts lines
152-166): push the dependent and clear the accumulator, run the function,
then — in the `finally`, on success and on error alike — pop the stack and
clear the accumulator; on success the captured accumulator, the result and a
cleared dirty flag are written back (src/computed.ts lines 52-62). -/
def run : Nat → Call → World → World × List Event × Except ErrKind Int
  | 0, _, w => (w, [], .error .nofuel)
  | Nat.succ f, c, w =>
    match c with
    | .eval e =>
      match e with
      | .const n => (w, [], .ok n)
      | .readStateValue i => (w, [], .ok (w.getS i).value)
      | .readStateUse i =>
        let w1 := trackDependency (.src i) w
        (w1, [], .ok (w1.getS i).value)
      | .readComputedValue j => run f (.readValue (.cmp j)) w
      | .add a b =>
        match run f (.eval a) w with
        | (w1, log1, .ok va) =>
          match run f (.eval b) w1 with
          | (w2, log2, .ok vb) => (w2, log1 ++ log2, .ok (va + vb))
          | (w2, log2, .error k) => (w2, log1 ++ log2, .error k)
        | (w1, log1, .error k) => (w1, log1, .error k)
      | .mul a b =>
        match run f (.eval a) w with
        | (w1, log1, .ok va) =>
          match run f (.eval b) w1 with
          | (w2, log2, .ok vb) => (w2, log1 ++ log2, .ok (va * vb))
          | (w2, log2, .error k) => (w2, log1 ++ log2, .error k)
        | (w1, log1, .error k) => (w1, log1, .error k)
      | .throwErr => (w, [], .error .fault)
    | .readValue o =>
      match o with
      | .src i => (w, [], .ok (w.getS i).value)
      | .cmp j =>
        let w1 := trackDependency (.cmp j) w
        run f (.peek j) w1
    | .peek j =>
      if (w.getC j).isDirty then
        match run f (.recompute j) w with
        | (w1, log1, .ok _) => (w1, log1, .ok (w1.getC j).cached)
        | (w1, log1, .error k) => (w1, log1, .error k)
      else (w, [], .ok (w.getC j).cached)
    | .recompute j =>
      let w1 := clearDependencies j w
      let w2 := { w1 with stack := j :: w1.stack, curDeps := [] }
      match run f (.eval ((w1.getC j).expr)) w2 with
      | (w3, log3, .ok v) =>
        let deps := w3.curDeps
        let w4 := { w3 with stack := w3.stack.tail, curDeps := [] }
        let w5 := w4.updC j
          (fun c => { c with dependencies := deps, cached := v, isDirty := false })
        (w5, .computeRun j :: log3, .ok 0)
      | (w3, log3, .error k) =>
        let w4 := { w3 with stack := w3.stack.tail, curDeps := [] }
        (w4, .computeRun j :: log3, .error k)
    | .invalidate j =>
      if (w.getC j).isDirty then (w, [.invalidateCall j], .ok 0)
      else
        let w1 := w.updC j (fun c => { c with isDirty := true })
        match run f (.notify ((w1.getC j).dependents)) w1 with
        | (w2, log2, .ok _) =>
          if (w2.getC j).listeners ≠ [] ∨ (w2.getC j).forceEager then
            let oldValue := (w2.getC j).cached
            match run f (.readValue (.cmp j)) w2 with
            | (w3, log3, .ok newValue) =>
              if oldValue = newValue then
                (w3, .invalidateCall j :: (log2 ++ log3), .ok 0)
              else
                match run f (.fire ((w3.getC j).listeners) newValue) w3 with
                | (w4, log4, .ok _) =>
                  (w4, .invalidateCall j :: (log2 ++ log3 ++ log4), .ok 0)
                | (w4, log4, .error k) =>
                  (w4, .invalidateCall j :: (log2 ++ log3 ++ log4), .error k)
            | (w3, log3, .error k) =>
              (w3, .invalidateCall j :: (log2 ++ log3), .error k)
          else (w2, .invalidateCall j :: log2, .ok 0)
        | (w2, log2, .error k) => (w2, .invalidateCall j :: log2, .error k)
    | .notify ds =>
      match ds with
      | [] => (w, [], .ok 0)
      | d :: rest =>
        match run f (.invalidate d) w with
        | (w1, log1, .ok _) =>
          match run f (.notify rest) w1 with
          | (w2, log2, r) => (w2, log1 ++ log2, r)
        | (w1, log1, .error k) => (w1, log1, .error k)
    | .fire ls v =>
      match ls with
      | [] => (w, [], .ok 0)
      | .plain lid :: rest =>
        match run f (.fire rest v) w with
        | (w1, log1, r) => (w1, .listenerCalled lid v :: log1, r)
      | .wrap k :: rest =>
        if (w.getObserver k).hasCallback then
          match run f (.readValue ((w.getObserver k).target)) w with
          | (w1, log1, .ok v1) =>
            match run f (.fire rest v) w1 with
            | (w2, log2, r) => (w2, log1 ++ (.cbCalled k v1 :: log2), r)
          | (w1, log1, .error e) => (w1, log1, .error e)
        else run f (.fire rest v) w
    | .setState i v =>
      if (w.getS i).value = v then (w, [], .ok 0)
      else
        let w1 := w.updS i (fun s => { s with value := v })
        match run f (.notify ((w1.getS i).dependents)) w1 with
        | (w2, log2, .ok _) =>
          match run f (.fire ((w2.getS i).listeners) ((w2.getS i).value)) w2 with
          | (w3, log3, r) => (w3, .stored i v :: (log2 ++ log3), r)
        | (w2, log2, .error k) => (w2, .stored i v :: log2, .error k)

/-- A freshly constructed `Computed`: dirty, `cachedValue = null` (modelled as
`0`; it is overwritten before it can be observed), empty sets. -/
def initComputed (e : Expr) : CCell :=
  { expr := e, cached := 0, isDirty := true, dependencies := [], dependents := [],
    listeners := [], forceEager := false }

/-- The `Computed` constructor (src/computed.ts lines 18-24): store the
function, then `const _ = this.value` to materialise the initial value and
dependency edges.  Returns the new cell's index. -/
def newComputed (fuel : Nat) (e : Expr) (w : World) :
    World × List Event × Except ErrKind Nat :=
  let j := w.comps.length
  let w1 := { w with comps := w.comps ++ [initComputed e] }
  match run fuel (.readValue (.cmp j)) w1 with
  | (w2, log, .ok _) => (w2, log, .ok j)
  | (w2, log, .error k) => (w2, log, .error k)

/-- Models `Observer.watch(reactive, callback)` (src/observer.ts lines 19-37): invoke
the callback with `reactive.value` immediately, create the observer, and
register the wrapper lambda via `reactive.onChange`.  Returns the observer
index. -/
def observerWatch (fuel : Nat) (target : Obs) (w : World) :
    World × List Event × Except ErrKind Nat :=
  match run fuel (.readValue target) w with
  | (w1, log1, .ok v) =>
    let k := w1.observers.length
    let w2 := { w1 with observers := w1.observers ++ [⟨target, true, true, false⟩] }
    let w3 := addListener target (.wrap k) w2
    (w3, log1 ++ [.cbCalled k v], .ok k)
  | (w1, log1, .error e) => (w1, log1, .error e)

/-- The field updates `dispose` performs on the observer record:
`callback = null; cleanup = null; isDisposed = true`. -/
def disposeMark (o : ObserverRec) : ObserverRec :=
  { o with hasCallback := false, hasCleanup := false, isDisposed := true }

/-- Models `Observer.dispose` (src/observer.ts lines 42-51): if not yet disposed, run
the cleanup (which removes the wrapper from the target's listener set), null
out `callback` and `cleanup`, and mark disposed. -/
def disposeObs (k : Nat) (w : World) : World :=
  let ob := w.getObserver k
  if ob.isDisposed then w
  else
    let w1 := if ob.hasCleanup then removeListener ob.target (.wrap k) w else w
    w1.updObserver k disposeMark

/-- The `forceEager` setter (src/computed.ts lines 72-77): store the flag,
then `if (this._forceEager && this.isDirty) this.invalidate()`. -/
def setForceEager (fuel : Nat) (j : Nat) (v : Bool) (w : World) :
    World × List Event × Except ErrKind Int :=
  let w1 := w.updC j (fun c => { c with forceEager := v })
  if v ∧ (w1.getC j).isDirty = true then run fuel (.invalidate j) w1
  else (w1, [], .ok 0)

/-!
### ReactiveList (src/reactive-list.ts)

The collection claims only count and order notifications, so the list model
is pure: each mutator returns the new list value together with the emitted
events.  `dependent.invalidate()` calls are abstracted as `invalidated`
events (the claims never look inside an invalidation).  Listener sets are
duplicate-free lists of identifiers.
-/

/-- A `ReactiveList<T>`: backing items, dependents, whole-list change
listeners, `addListeners` and `removeListeners`. -/
structure RList (α : Type) where
  items : List α
  dependents : List Nat
  listeners : List Nat
  addListeners : List Nat
  removeListeners : List Nat
deriving DecidableEq, Repr

/-- A notification emitted by a `ReactiveList` mutator. -/
inductive LEvent (α : Type) where
  | removed (lid : Nat) (item : α) (idx : Nat)
  | added (lid : Nat) (item : α) (idx : Nat)
  | changed (lid : Nat) (items : List α)
  | invalidated (d : Nat)
deriving DecidableEq, Repr

/-- Models `notifyItemAdded` (src/reactive-list.ts lines 239-243): if there are add
listeners, invoke each with the item and index. -/
def notifyItemAdded {α : Type} (w : RList α) (item : α) (idx : Nat) : List (LEvent α) :=
  if w.addListeners ≠ [] then w.addListeners.map (fun lid => .added lid item idx) else []

/-- Models `notifyItemRemoved` (src/reactive-list.ts lines 249-253). -/
def notifyItemRemoved {α : Type} (w : RList α) (item : α) (idx : Nat) : List (LEvent α) :=
  if w.removeListeners ≠ [] then w.removeListeners.map (fun lid => .removed lid item idx) else []

/-- Models `onItemsChanged` (src/reactive-list.ts lines 258-266): notify dependents
(each `invalidate()` call abstracted as one event), then invoke each
whole-list listener with the current items. -/
def onItemsChanged {α : Type} (w : RList α) : List (LEvent α) :=
  (if w.dependents ≠ [] then w.dependents.map (fun d => LEvent.invalidated d) else [])
    ++ (if w.listeners ≠ [] then w.listeners.map (fun lid => LEvent.changed lid w.items) else [])

/-- Models `ReactiveList.remove(item)` (lines 82-91): find the first index of the
item; if present, splice it out, notify the removal, notify the change and
return `true`; otherwise do nothing and return `false`. -/
def listRemove {α : Type} [DecidableEq α] (w : RList α) (item : α) :
    RList α × List (LEvent α) × Bool :=
  match w.items.findIdx? (fun x => x = item) with
  | some idx =>
    let w1 := { w with items := w.items.eraseIdx idx }
    (w1, notifyItemRemoved w1 item idx ++ onItemsChanged w1, true)
  | none => (w, [], false)

/-- Models `ReactiveList.removeAt(index)` (lines 96-104): if the (possibly negative)
index is in bounds, splice out that element, notify, and return it. -/
def listRemoveAt {α : Type} (w : RList α) (index : Int) :
    RList α × List (LEvent α) × Option α :=
  if 0 ≤ index ∧ index < w.items.length then
    match w.items[index.toNat]? with
    | some item =>
      let w1 := { w with items := w.items.eraseIdx index.toNat }
      (w1, notifyItemRemoved w1 item index.toNat ++ onItemsChanged w1, some item)
    | none => (w, [], none)
  else (w, [], none)

/-- Models `ReactiveList.update(index, item)` (lines 109-116): if the index is in
bounds, overwrite the element and notify the whole-list change (no
added/removed events); otherwise do nothing and return `false`. -/
def listUpdate {α : Type} (w : RList α) (index : Int) (item : α) :
    RList α × List (LEvent α) × Bool :=
  if 0 ≤ index ∧ index < w.items.length then
    let w1 := { w with items := w.items.set index.toNat item }
    (w1, onItemsChanged w1, true)
  else (w, [], false)

/-- Models `ReactiveList.clear()` (lines 121-137): if non-empty, notify each removal
from last to first (only when remove listeners exist), empty the backing
array, and notify the change. -/
def listClear {α : Type} (w : RList α) : RList α × List (LEvent α) :=
  if w.items.length > 0 then
    let removeEvents :=
      if w.removeListeners ≠ [] then
        (w.items.enum.reverse).flatMap (fun p => notifyItemRemoved w p.2 p.1)
      else []
    let w1 := { w with items := [] }
    (w1, removeEvents ++ onItemsChanged w1)
  else (w, [])

/-- Models `ReactiveList.replace(items)` (lines 142-164): notify removal of every old
element from last to first (when remove listeners exist), install the new
items, notify every addition first to last (when add listeners exist), then
notify the whole-list change. -/
def listReplace {α : Type} (w : RList α) (newItems : List α) :
    RList α × List (LEvent α) :=
  let removeEvents :=
    if w.removeListeners ≠ [] then
      (w.items.enum.reverse).flatMap (fun p => notifyItemRemoved w p.2 p.1)
    else []
  let w1 := { w with items := newItems }
  let addEvents :=
    if w1.addListeners ≠ [] then
      w1.items.enum.flatMap (fun p => notifyItemAdded w1 p.2 p.1)
    else []
  (w1, removeEvents ++ addEvents ++ onItemsChanged w1)

/-!
### Accessor lemmas
-/

@[simp]
theorem getS_updC (w : World) (j : Nat) (f : CCell → CCell) (i : Nat) :
    (w.updC j f).getS i = w.getS i := rfl

@[simp]
theorem getC_updS (w : World) (i : Nat) (f : SCell → SCell) (j : Nat) :
    (w.updS i f).getC j = w.getC j := rfl

@[simp]
theorem getObserver_updC (w : World) (j : Nat) (f : CCell → CCell) (k : Nat) :
    (w.updC j f).getObserver k = w.getObserver k := rfl

@[simp]
theorem getObserver_updS (w : World) (i : Nat) (f : SCell → SCell) (k : Nat) :
    (w.updS i f).getObserver k = w.getObserver k := rfl

theorem getC_default_of_le (w : World) (j : Nat) (h : w.comps.length ≤ j) :
    w.getC j = defaultC := by
  simp [World.getC, List.getD, List.getElem?_eq_none h]

theorem getS_default_of_le (w : World) (i : Nat) (h : w.states.length ≤ i) :
    w.getS i = defaultS := by
  simp [World.getS, List.getD, List.getElem?_eq_none h]

theorem getC_updC_self (w : World) (j : Nat) (f : CCell → CCell)
    (h : j < w.comps.length) : (w.updC j f).getC j = f (w.getC j) := by
  simp [World.getC, World.updC, List.getD, List.getElem?_set_self',
    List.getElem?_eq_getElem h]

theorem getS_updS_self (w : World) (i : Nat) (f : SCell → SCell)
    (h : i < w.states.length) : (w.updS i f).getS i = f (w.getS i) := by
  simp [World.getS, World.updS, List.getD, List.getElem?_set_self',
    List.getElem?_eq_getElem h]

theorem getC_updC_ne (w : World) (j j' : Nat) (f : CCell → CCell)
    (h : j ≠ j') : (w.updC j f).getC j' = w.getC j' := by
  simp [World.getC, World.updC, List.getD, List.getElem?_set_ne h]

theorem getS_updS_ne (w : World) (i i' : Nat) (f : SCell → SCell)
    (h : i ≠ i') : (w.updS i f).getS i' = w.getS i' := by
  simp [World.getS, World.updS, List.getD, List.getElem?_set_ne h]

theorem updC_eq_of_le (w : World) (j : Nat) (f : CCell → CCell)
    (h : w.comps.length ≤ j) : w.updC j f = w := by
  simp [World.updC, List.set_eq_of_length_le h]

theorem updS_eq_of_le (w : World) (i : Nat) (f : SCell → SCell)
    (h : w.states.length ≤ i) : w.updS i f = w := by
  simp [World.updS, List.set_eq_of_length_le h]

/-!
### Frame preservation

`run` never changes a computed cell's stored derivation function or any
listener set, never touches the observer table, and leaves the tracker stack
balanced; every call other than `setState` also preserves every source
value.  These facts are used throughout the claim proofs.
-/

theorem getS_updS_proj {β : Type} (w : World) (i' : Nat) (f : SCell → SCell)
    (P : SCell → β) (h : ∀ s, P (f s) = P s) (i : Nat) :
    P ((w.updS i' f).getS i) = P (w.getS i) := by
  rcases lt_or_ge i' w.states.length with hlt | hge
  · by_cases hei : i = i'
    · subst hei; rw [getS_updS_self w i f hlt, h]
    · rw [getS_updS_ne w i' i f (Ne.symm hei)]
  · rw [updS_eq_of_le w i' f hge]

theorem getC_updC_proj {β : Type} (w : World) (j' : Nat) (f : CCell → CCell)
    (P : CCell → β) (h : ∀ c, P (f c) = P c) (j : Nat) :
    P ((w.updC j' f).getC j) = P (w.getC j) := by
  rcases lt_or_ge j' w.comps.length with hlt | hge
  · by_cases hej : j = j'
    · subst hej; rw [getC_updC_self w j f hlt, h]
    · rw [getC_updC_ne w j' j f (Ne.symm hej)]
  · rw [updC_eq_of_le w j' f hge]

/-- The parts of the world that `run` can never change: the tracker stack
(balanced on every exit path), the observer table, every derivation function
and every listener set. -/
structure FrameNV (w w' : World) : Prop where
  stk : w'.stack = w.stack
  obs : w'.observers = w.observers
  cexpr : ∀ j, (w'.getC j).expr = (w.getC j).expr
  clst : ∀ j, (w'.getC j).listeners = (w.getC j).listeners
  slst : ∀ i, (w'.getS i).listeners = (w.getS i).listeners

theorem frameNV_refl (w : World) : FrameNV w w :=
  ⟨rfl, rfl, fun _ => rfl, fun _ => rfl, fun _ => rfl⟩

theorem frameNV_trans {w w₁ w₂ : World} (h1 : FrameNV w w₁) (h2 : FrameNV w₁ w₂) :
    FrameNV w w₂ :=
  ⟨h2.stk.trans h1.stk, h2.obs.trans h1.obs,
   fun j => (h2.cexpr j).trans (h1.cexpr j),
   fun j => (h2.clst j).trans (h1.clst j),
   fun i => (h2.slst i).trans (h1.slst i)⟩

/-- Source values agree. -/
def ValEq (w w' : World) : Prop := ∀ i, (w'.getS i).value = (w.getS i).value

theorem valEq_refl (w : World) : ValEq w w := fun _ => rfl

theorem valEq_trans {w w₁ w₂ : World} (h1 : ValEq w w₁) (h2 : ValEq w₁ w₂) :
    ValEq w w₂ := fun i => (h2 i).trans (h1 i)

theorem frameNV_updS (w : World) (i : Nat) (f : SCell → SCell)
    (h : ∀ s, (f s).listeners = s.listeners) : FrameNV w (w.updS i f) :=
  ⟨rfl, rfl, fun _ => rfl, fun _ => rfl,
   fun i' => getS_updS_proj w i f (fun s => s.listeners) h i'⟩

theorem valEq_updS (w : World) (i : Nat) (f : SCell → SCell)
    (h : ∀ s, (f s).value = s.value) : ValEq w (w.updS i f) :=
  fun i' => getS_updS_proj w i f (fun s => s.value) h i'

theorem frameNV_updC (w : World) (j : Nat) (f : CCell → CCell)
    (he : ∀ c, (f c).expr = c.expr) (hl : ∀ c, (f c).listeners = c.listeners) :
    FrameNV w (w.updC j f) :=
  ⟨rfl, rfl, fun j' => getC_updC_proj w j f (fun c => c.expr) he j',
   fun j' => getC_updC_proj w j f (fun c => c.listeners) hl j', fun _ => rfl⟩

theorem valEq_updC (w : World) (j : Nat) (f : CCell → CCell) :
    ValEq w (w.updC j f) := fun _ => rfl

theorem frameNV_addDependent (o : Obs) (d : Nat) (w : World) :
    FrameNV w (addDependent o d w) := by
  cases o with
  | src i =>
    show FrameNV w (w.updS i fun s => { s with dependents := insertUnique d s.dependents })
    exact frameNV_updS w i _ (fun _ => rfl)
  | cmp j =>
    show FrameNV w (w.updC j fun c => { c with dependents := insertUnique d c.dependents })
    exact frameNV_updC w j _ (fun _ => rfl) (fun _ => rfl)

theorem valEq_addDependent (o : Obs) (d : Nat) (w : World) :
    ValEq w (addDependent o d w) := by
  cases o with
  | src i =>
    show ValEq w (w.updS i fun s => { s with dependents := insertUnique d s.dependents })
    exact valEq_updS w i _ (fun _ => rfl)
  | cmp j =>
    show ValEq w (w.updC j fun c => { c with dependents := insertUnique d c.dependents })
    exact valEq_updC w j _

theorem frameNV_removeDependent (o : Obs) (d : Nat) (w : World) :
    FrameNV w (removeDependent o d w) := by
  cases o with
  | src i =>
    show FrameNV w (w.updS i fun s => { s with dependents := s.dependents.erase d })
    exact frameNV_updS w i _ (fun _ => rfl)
  | cmp j =>
    show FrameNV w (w.updC j fun c => { c with dependents := c.dependents.erase d })
    exact frameNV_updC w j _ (fun _ => rfl) (fun _ => rfl)

theorem valEq_removeDependent (o : Obs) (d : Nat) (w : World) :
    ValEq w (removeDependent o d w) := by
  cases o with
  | src i =>
    show ValEq w (w.updS i fun s => { s with dependents := s.dependents.erase d })
    exact valEq_updS w i _ (fun _ => rfl)
  | cmp j =>
    show ValEq w (w.updC j fun c => { c with dependents := c.dependents.erase d })
    exact valEq_updC w j _

theorem frameNV_curDeps (w : World) (x : List Obs) :
    FrameNV w { w with curDeps := x } :=
  ⟨rfl, rfl, fun _ => rfl, fun _ => rfl, fun _ => rfl⟩

theorem frameNV_trackDependency (o : Obs) (w : World) :
    FrameNV w (trackDependency o w) := by
  obtain ⟨st, cs, os, sk, cd⟩ := w
  cases sk with
  | nil => exact frameNV_refl _
  | cons d t =>
    show FrameNV _ (addDependent o d _)
    exact frameNV_trans (frameNV_curDeps _ _) (frameNV_addDependent o d _)

theorem valEq_trackDependency (o : Obs) (w : World) :
    ValEq w (trackDependency o w) := by
  obtain ⟨st, cs, os, sk, cd⟩ := w
  cases sk with
  | nil => exact valEq_refl _
  | cons d t =>
    show ValEq _ (addDependent o d _)
    exact valEq_addDependent o d _

theorem frameNV_removeDependent_foldl (ds : List Obs) (j : Nat) :
    ∀ w : World, FrameNV w (ds.foldl (fun acc o => removeDependent o j acc) w) := by
  induction ds with
  | nil => intro w; exact frameNV_refl w
  | cons o rest ih =>
    intro w
    exact frameNV_trans (frameNV_removeDependent o j w) (ih _)

theorem valEq_removeDependent_foldl (ds : List Obs) (j : Nat) :
    ∀ w : World, ValEq w (ds.foldl (fun acc o => removeDependent o j acc) w) := by
  induction ds with
  | nil => intro w; exact valEq_refl w
  | cons o rest ih =>
    intro w
    exact valEq_trans (valEq_removeDependent o j w) (ih _)

theorem frameNV_clearDependencies (j : Nat) (w : World) :
    FrameNV w (clearDependencies j w) := by
  unfold clearDependencies
  exact frameNV_trans (frameNV_removeDependent_foldl _ j w)
    (frameNV_updC _ j _ (fun _ => rfl) (fun _ => rfl))

theorem valEq_clearDependencies (j : Nat) (w : World) :
    ValEq w (clearDependencies j w) := by
  unfold clearDependencies
  exact valEq_trans (valEq_removeDependent_foldl _ j w) (valEq_updC _ j _)

/-- Whether a call is `setState` (the only call that changes a source value). -/
def isSetState : Call → Bool
  | .setState _ _ => true
  | _ => false

/-- Global frame preservation for the interpreter. -/
theorem run_frame : ∀ (f : Nat) (c : Call) (w : World),
    FrameNV w (run f c w).1 ∧ (isSetState c = false → ValEq w (run f c w).1) := by
  intro f
  induction f with
  | zero => intro c w; exact ⟨frameNV_refl w, fun _ => valEq_refl w⟩
  | succ f ih =>
    intro c w
    cases c with
    | eval e =>
      cases e with
      | const n => exact ⟨frameNV_refl w, fun _ => valEq_refl w⟩
      | readStateValue i => exact ⟨frameNV_refl w, fun _ => valEq_refl w⟩
      | readStateUse i =>
        exact ⟨frameNV_trackDependency (.src i) w,
          fun _ => valEq_trackDependency (.src i) w⟩
      | readComputedValue j =>
        have h := ih (.readValue (.cmp j)) w
        exact ⟨h.1, fun _ => h.2 rfl⟩
      | add a b =>
        simp only [run]
        rcases hA : run f (.eval a) w with ⟨w1, log1, r1⟩
        have ihA := ih (.eval a) w
        rw [hA] at ihA
        cases r1 with
        | error k => exact ⟨ihA.1, fun _ => ihA.2 rfl⟩
        | ok va =>
          dsimp only
          rcases hB : run f (.eval b) w1 with ⟨w2, log2, r2⟩
          have ihB := ih (.eval b) w1
          rw [hB] at ihB
          cases r2 with
          | error k =>
            exact ⟨frameNV_trans ihA.1 ihB.1, fun _ => valEq_trans (ihA.2 rfl) (ihB.2 rfl)⟩
          | ok vb =>
            exact ⟨frameNV_trans ihA.1 ihB.1, fun _ => valEq_trans (ihA.2 rfl) (ihB.2 rfl)⟩
      | mul a b =>
        simp only [run]
        rcases hA : run f (.eval a) w with ⟨w1, log1, r1⟩
        have ihA := ih (.eval a) w
        rw [hA] at ihA
        cases r1 with
        | error k => exact ⟨ihA.1, fun _ => ihA.2 rfl⟩
        | ok va =>
          dsimp only
          rcases hB : run f (.eval b) w1 with ⟨w2, log2, r2⟩
          have ihB := ih (.eval b) w1
          rw [hB] at ihB
          cases r2 with
          | error k =>
            exact ⟨frameNV_trans ihA.1 ihB.1, fun _ => valEq_trans (ihA.2 rfl) (ihB.2 rfl)⟩
          | ok vb =>
            exact ⟨frameNV_trans ihA.1 ihB.1, fun _ => valEq_trans (ihA.2 rfl) (ihB.2 rfl)⟩
      | throwErr => exact ⟨frameNV_refl w, fun _ => valEq_refl w⟩
    | readValue o =>
      cases o with
      | src i => exact ⟨frameNV_refl w, fun _ => valEq_refl w⟩
      | cmp j =>
        have h := ih (.peek j) (trackDependency (.cmp j) w)
        exact ⟨frameNV_trans (frameNV_trackDependency (.cmp j) w) h.1,
          fun _ => valEq_trans (valEq_trackDependency (.cmp j) w) (h.2 rfl)⟩
    | peek j =>
      simp only [run]
      by_cases hd : (w.getC j).isDirty = true
      · rw [if_pos hd]
        rcases hR : run f (.recompute j) w with ⟨w1, log1, r1⟩
        have ihR := ih (.recompute j) w
        rw [hR] at ihR
        cases r1 with
        | error k => exact ⟨ihR.1, fun _ => ihR.2 rfl⟩
        | ok v => exact ⟨ihR.1, fun _ => ihR.2 rfl⟩
      · rw [if_neg hd]
        exact ⟨frameNV_refl w, fun _ => valEq_refl w⟩
    | recompute j =>
      have hc := frameNV_clearDependencies j w
      have hcv := valEq_clearDependencies j w
      simp only [run]
      set w1 := clearDependencies j w with hw1
      set w2 : World := { w1 with stack := j :: w1.stack, curDeps := [] } with hw2
      rcases hE : run f (.eval ((w1.getC j).expr)) w2 with ⟨w3, log3, r3⟩
      have ihE := ih (.eval ((w1.getC j).expr)) w2
      rw [hE] at ihE
      have hstack3 : w3.stack = j :: w1.stack := ihE.1.stk
      have hobs3 : w3.observers = w.observers := ihE.1.obs.trans hc.obs
      have hce3 : ∀ j', (w3.getC j').expr = (w.getC j').expr :=
        fun j' => (ihE.1.cexpr j').trans (hc.cexpr j')
      have hcl3 : ∀ j', (w3.getC j').listeners = (w.getC j').listeners :=
        fun j' => (ihE.1.clst j').trans (hc.clst j')
      have hsl3 : ∀ i, (w3.getS i).listeners = (w.getS i).listeners :=
        fun i => (ihE.1.slst i).trans (hc.slst i)
      have hv3 : ∀ i, (w3.getS i).value = (w.getS i).value :=
        fun i => ((ihE.2 rfl) i).trans (hcv i)
      cases r3 with
      | error k =>
        dsimp only
        refine ⟨⟨?_, hobs3, hce3, hcl3, hsl3⟩, fun _ => hv3⟩
        show w3.stack.tail = w.stack
        rw [hstack3]
        exact hc.stk
      | ok v =>
        dsimp only
        set w4 : World := { w3 with stack := w3.stack.tail, curDeps := [] } with hw4
        have hupd := frameNV_updC w4 j
          (fun c => { c with dependencies := w3.curDeps, cached := v, isDirty := false })
          (fun _ => rfl) (fun _ => rfl)
        refine ⟨⟨?_, ?_, ?_, ?_, ?_⟩, fun _ => ?_⟩
        · rw [hupd.stk]
          show w3.stack.tail = w.stack
          rw [hstack3]
          exact hc.stk
        · exact hupd.obs.trans hobs3
        · exact fun j' => (hupd.cexpr j').trans (hce3 j')
        · exact fun j' => (hupd.clst j').trans (hcl3 j')
        · exact fun i => (hupd.slst i).trans (hsl3 i)
        · exact fun i => (valEq_updC w4 j _ i).trans (hv3 i)
    | invalidate j =>
      simp only [run]
      by_cases hd : (w.getC j).isDirty = true
      · rw [if_pos hd]
        exact ⟨frameNV_refl w, fun _ => valEq_refl w⟩
      · rw [if_neg hd]
        have hu := frameNV_updC w j (fun c => { c with isDirty := true })
          (fun _ => rfl) (fun _ => rfl)
        have huv := valEq_updC w j (fun c => { c with isDirty := true })
        set w1 := w.updC j (fun c => { c with isDirty := true }) with hw1
        rcases hN : run f (.notify ((w1.getC j).dependents)) w1 with ⟨w2, log2, r2⟩
        have ihN := ih (.notify ((w1.getC j).dependents)) w1
        rw [hN] at ihN
        cases r2 with
        | error k =>
          exact ⟨frameNV_trans hu ihN.1, fun _ => valEq_trans huv (ihN.2 rfl)⟩
        | ok u =>
          dsimp only
          by_cases hl : (w2.getC j).listeners ≠ [] ∨ (w2.getC j).forceEager = true
          · rw [if_pos hl]
            rcases hV : run f (.readValue (.cmp j)) w2 with ⟨w3, log3, r3⟩
            have ihV := ih (.readValue (.cmp j)) w2
            rw [hV] at ihV
            cases r3 with
            | error k =>
              exact ⟨frameNV_trans hu (frameNV_trans ihN.1 ihV.1),
                fun _ => valEq_trans huv (valEq_trans (ihN.2 rfl) (ihV.2 rfl))⟩
            | ok newValue =>
              dsimp only
              by_cases he : (w2.getC j).cached = newValue
              · rw [if_pos he]
                exact ⟨frameNV_trans hu (frameNV_trans ihN.1 ihV.1),
                  fun _ => valEq_trans huv (valEq_trans (ihN.2 rfl) (ihV.2 rfl))⟩
              · rw [if_neg he]
                rcases hF : run f (.fire ((w3.getC j).listeners) newValue) w3
                  with ⟨w4, log4, r4⟩
                have ihF := ih (.fire ((w3.getC j).listeners) newValue) w3
                rw [hF] at ihF
                cases r4 with
                | error k =>
                  exact ⟨frameNV_trans hu (frameNV_trans ihN.1 (frameNV_trans ihV.1 ihF.1)),
                    fun _ => valEq_trans huv (valEq_trans (ihN.2 rfl)
                      (valEq_trans (ihV.2 rfl) (ihF.2 rfl)))⟩
                | ok u2 =>
                  exact ⟨frameNV_trans hu (frameNV_trans ihN.1 (frameNV_trans ihV.1 ihF.1)),
                    fun _ => valEq_trans huv (valEq_trans (ihN.2 rfl)
                      (valEq_trans (ihV.2 rfl) (ihF.2 rfl)))⟩
          · rw [if_neg hl]
            exact ⟨frameNV_trans hu ihN.1, fun _ => valEq_trans huv (ihN.2 rfl)⟩
    | notify ds =>
      cases ds with
      | nil => exact ⟨frameNV_refl w, fun _ => valEq_refl w⟩
      | cons d rest =>
        simp only [run]
        rcases hI : run f (.invalidate d) w with ⟨w1, log1, r1⟩
        have ihI := ih (.invalidate d) w
        rw [hI] at ihI
        cases r1 with
        | error k => exact ⟨ihI.1, fun _ => ihI.2 rfl⟩
        | ok u =>
          dsimp only
          rcases hR : run f (.notify rest) w1 with ⟨w2, log2, r2⟩
          have ihR := ih (.notify rest) w1
          rw [hR] at ihR
          exact ⟨frameNV_trans ihI.1 ihR.1, fun _ => valEq_trans (ihI.2 rfl) (ihR.2 rfl)⟩
    | fire ls v =>
      cases ls with
      | nil => exact ⟨frameNV_refl w, fun _ => valEq_refl w⟩
      | cons l rest =>
        cases l with
        | plain lid =>
          simp only [run]
          rcases hR : run f (.fire rest v) w with ⟨w1, log1, r1⟩
          have ihR := ih (.fire rest v) w
          rw [hR] at ihR
          exact ⟨ihR.1, fun _ => ihR.2 rfl⟩
        | wrap k =>
          simp only [run]
          by_cases hc : (w.getObserver k).hasCallback = true
          · rw [if_pos hc]
            rcases hV : run f (.readValue ((w.getObserver k).target)) w with ⟨w1, log1, r1⟩
            have ihV := ih (.readValue ((w.getObserver k).target)) w
            rw [hV] at ihV
            cases r1 with
            | error e => exact ⟨ihV.1, fun _ => ihV.2 rfl⟩
            | ok v1 =>
              dsimp only
              rcases hR : run f (.fire rest v) w1 with ⟨w2, log2, r2⟩
              have ihR := ih (.fire rest v) w1
              rw [hR] at ihR
              exact ⟨frameNV_trans ihV.1 ihR.1, fun _ => valEq_trans (ihV.2 rfl) (ihR.2 rfl)⟩
          · rw [if_neg hc]
            exact ih (.fire rest v) w
    | setState i v =>
      simp only [run]
      by_cases he : (w.getS i).value = v
      · rw [if_pos he]
        exact ⟨frameNV_refl w, fun _ => valEq_refl w⟩
      · rw [if_neg he]
        have hu := frameNV_updS w i (fun s => { s with value := v }) (fun _ => rfl)
        set w1 := w.updS i (fun s => { s with value := v }) with hw1
        rcases hN : run f (.notify ((w1.getS i).dependents)) w1 with ⟨w2, log2, r2⟩
        have ihN := ih (.notify ((w1.getS i).dependents)) w1
        rw [hN] at ihN
        cases r2 with
        | error k =>
          refine ⟨frameNV_trans hu ihN.1, fun hfalse => ?_⟩
          simp [isSetState] at hfalse
        | ok u =>
          dsimp only
          rcases hF : run f (.fire ((w2.getS i).listeners) ((w2.getS i).value)) w2
            with ⟨w3, log3, r3⟩
          have ihF := ih (.fire ((w2.getS i).listeners) ((w2.getS i).value)) w2
          rw [hF] at ihF
          refine ⟨frameNV_trans hu (frameNV_trans ihN.1 ihF.1), fun hfalse => ?_⟩
          simp [isSetState] at hfalse

/-!
### Claim C1 — nested tracked evaluations
-/

/-- The world for the C1 scenario: sources `a = src 0` (value 10) and
`b = src 1` (value 20); computed `0` is the dirty inner derivation reading
`b.use()`, computed `1` is the dirty outer derivation that reads `a.use()`
and then the inner derivation's tracked `value` getter. -/
def c1w : World :=
  ⟨[⟨10, [], []⟩, ⟨20, [], []⟩],
   [initComputed (.readStateUse 1),
    initComputed (.add (.readStateUse 0) (.readComputedValue 0))],
   [], [], []⟩

/-- Claim C1: nested tracked evaluations preserve the outer frame's
accumulator.  The code refutes this: `DependencyTracker.track` clears the
single shared `currentDependencies` set when the inner frame is pushed, so
after the outer evaluation of computed `1` — which reads source `0` and then
the dirty computed `0` (whose recompute pushes a second frame) — the
dependency set returned for the outer frame is empty: it has lost both the
source `0` read first and the inner computed `0` itself.  The inner frame's
returned set is `[src 1]` as expected, and the eager `addDependent` edges do
survive (the dependent sets below), which is exactly the divergence between
the returned accumulator and the registered edges. -/
theorem C1_nested_tracking_code_divergence :
    (run 20 (.peek 1) c1w).2.2 = .ok 30
    ∧ ((run 20 (.peek 1) c1w).1.getC 1).dependencies = []
    ∧ ((run 20 (.peek 1) c1w).1.getC 0).dependencies = [.src 1]
    ∧ ((run 20 (.peek 1) c1w).1.getS 0).dependents = [1]
    ∧ ((run 20 (.peek 1) c1w).1.getC 0).dependents = [1]
    ∧ ((run 20 (.peek 1) c1w).1.getS 1).dependents = [0] := by
  refine ⟨?_, ?_, ?_, ?_, ?_, ?_⟩ <;> decide

/-!
### Claim C2 — end-to-end watch pipeline
-/

/-- Initial world for C2: one source `s = src 0` with value 1. -/
def c2w0 : World := ⟨[⟨1, [], []⟩], [], [], [], []⟩

/-- After `d = new Computed(() => s.value * 2)` (the derivation reads the
untracked `value` getter, as the claim specifies). -/
def c2wA : World := (newComputed 10 (.mul (.readStateValue 0) (.const 2)) c2w0).1

/-- After `watch(d, cb)`. -/
def c2wB : World := (observerWatch 10 (.cmp 0) c2wA).1

/-- After `s.set(5)`. -/
def c2wC : World := (run 10 (.setState 0 5) c2wB).1

/-- Claim C2: the end-to-end pipeline `s = source(1); d = derived(() =>
s.value * 2); watch(d, cb)` then `s.set(5)` then `s.set(5)`.  The code
refutes the middle step: `cb` is invoked exactly once with 2 at watch time,
but because the `State` `value` getter performs no dependency tracking, `s`
ends up with no dependents and no listeners, so `s.set(5)` merely stores the
value and never reaches `cb` — it is not invoked with 10.  (The repository's
own tests expect derivations built on `state.value` to recompute, so this is
a divergence of the code from its own test suite as well as from the spec.)
The second `s.set(5)` is a no-op as the claim says. -/
theorem C2_watch_pipeline_code_divergence :
    (newComputed 10 (.mul (.readStateValue 0) (.const 2)) c2w0).2 = ([.computeRun 0], .ok 0)
    ∧ (observerWatch 10 (.cmp 0) c2wA).2 = ([.cbCalled 0 2], .ok 0)
    ∧ (c2wB.getS 0).dependents = [] ∧ (c2wB.getS 0).listeners = []
    ∧ (run 10 (.setState 0 5) c2wB).2 = ([.stored 0 5], .ok 0)
    ∧ (run 10 (.setState 0 5) c2wC).2 = ([], .ok 0) := by
  refine ⟨?_, ?_, ?_, ?_, ?_, ?_⟩ <;> decide

/-!
### Claim C3 — equal-value write is a complete no-op
-/

/-- Claim C3: for every source cell and every value identity-equal to its
current value, `set` leaves the world untouched and emits no event at all —
no stored value, no listener invocation, no dependent invalidation
(src/state.ts lines 38-43: the unequal guard fails and the body is
skipped). -/
theorem C3_equal_write_no_op (f i : Nat) (v : Int) (w : World)
    (h : (w.getS i).value = v) :
    run (f + 1) (.setState i v) w = (w, [], .ok 0) := by
  simp [run, h]

/-- Witness for C3 at a concrete input. -/
theorem C3_equal_write_no_op_witness :
    ((⟨[⟨1, [], []⟩], [], [], [], []⟩ : World).getS 0).value = 1
    ∧ run 3 (.setState 0 1) ⟨[⟨1, [], []⟩], [], [], [], []⟩
        = (⟨[⟨1, [], []⟩], [], [], [], []⟩, [], .ok 0) :=
  ⟨rfl, C3_equal_write_no_op 2 0 1 _ rfl⟩

/-!
### Claim C5 — derivation-fault atomicity (counterexample part)
-/

/-- World for the C5 counterexample: source `0` (value 7) currently has the
computed as a dependent, and computed `0` is dirty with previous cached value
42, previous dependency edge to `src 0`, and a derivation that throws. -/
def c5w : World :=
  ⟨[⟨7, [0], []⟩],
   [⟨.throwErr, 42, true, [.src 0], [], [], false⟩],
   [], [], []⟩

/-- Counterexample to claim C5 as stated: when the derivation throws during
recompute, the exception propagates and the tracker stack is restored and
the cell stays dirty with its old cached value — but the previous dependency
edges are NOT undiscarded: `recompute` runs `clearDependencies()` before the
tracked call, so after the fault the cell's dependency set is empty and the
cell has been removed from its former source's dependent set. -/
theorem C5_fault_edges_discarded_counterexample :
    (run 5 (.peek 0) c5w).2 = ([.computeRun 0], .error .fault)
    ∧ ((run 5 (.peek 0) c5w).1.getC 0).dependencies = []
    ∧ ((run 5 (.peek 0) c5w).1.getS 0).dependents = []
    ∧ ((run 5 (.peek 0) c5w).1.getC 0).isDirty = true
    ∧ ((run 5 (.peek 0) c5w).1.getC 0).cached = 42
    ∧ ((run 5 (.peek 0) c5w).1).stack = [] := by
  refine ⟨?_, ?_, ?_, ?_, ?_, ?_⟩ <;> decide

/-!
### Claim C6 — replace event order and counts
-/

/-- Claim C6: `replace([x, y])` on a 3-element list with one whole-list
listener `lc`, one add listener `la` and one remove listener `lr` emits
exactly 3 removed events in last-to-first order of the original indices,
then exactly 2 added events in first-to-last order of the new indices, then
exactly 1 whole-list change notification. -/
theorem C6_replace_event_order (p q r x y : Int) (lc la lr : Nat) :
    listReplace (⟨[p, q, r], [], [lc], [la], [lr]⟩ : RList Int) [x, y] =
      (⟨[x, y], [], [lc], [la], [lr]⟩,
       [.removed lr r 2, .removed lr q 1, .removed lr p 0,
        .added la x 0, .added la y 1, .changed lc [x, y]]) := rfl

/-!
### Claim C7 — no-op conditions for collection mutators (counterexample part)
-/

/-- Counterexample to claim C7 as stated: `replace(items)` is NOT a no-op
when the new items would not change membership.  Replacing `[0]` by `[0]` on
a list with one listener of each kind emits a removed event, an added event
and a whole-list change notification. -/
theorem C7_replace_no_change_counterexample :
    (listReplace (⟨[0], [], [1], [2], [3]⟩ : RList Int) [0]).2
        = [.removed 3 0 0, .added 2 0 0, .changed 1 [0]]
    ∧ (listReplace (⟨[0], [], [1], [2], [3]⟩ : RList Int) [0]).2 ≠ [] := by
  refine ⟨?_, ?_⟩ <;> decide

/-!
### Claim C8 — write notification ordering
-/

/-- The event a listener entry produces when fired with a value. -/
def listenerEvent : Listener → Int → Event
  | .plain lid, v => .listenerCalled lid v
  | .wrap k, v => .cbCalled k v

/-- Every `invalidate` call logs its entry first, on every path. -/
theorem invalidate_log_head (f : Nat) (d : Nat) (w : World) :
    ∃ rest, (run (f + 1) (.invalidate d) w).2.1 = Event.invalidateCall d :: rest := by
  simp only [run]
  by_cases hd : (w.getC d).isDirty = true
  · rw [if_pos hd]
    exact ⟨[], rfl⟩
  · rw [if_neg hd]
    set w1 := w.updC d (fun c => { c with isDirty := true }) with hw1
    rcases hN : run f (.notify ((w1.getC d).dependents)) w1 with ⟨w2, log2, r2⟩
    cases r2 with
    | error k => exact ⟨log2, rfl⟩
    | ok u =>
      dsimp only
      by_cases hl : (w2.getC d).listeners ≠ [] ∨ (w2.getC d).forceEager = true
      · rw [if_pos hl]
        rcases hV : run f (.readValue (.cmp d)) w2 with ⟨w3, log3, r3⟩
        cases r3 with
        | error k => exact ⟨log2 ++ log3, rfl⟩
        | ok newValue =>
          dsimp only
          by_cases he : (w2.getC d).cached = newValue
          · rw [if_pos he]
            exact ⟨log2 ++ log3, rfl⟩
          · rw [if_neg he]
            rcases hF : run f (.fire ((w3.getC d).listeners) newValue) w3
              with ⟨w4, log4, r4⟩
            cases r4 with
            | error k => exact ⟨log2 ++ log3 ++ log4, rfl⟩
            | ok u2 => exact ⟨log2 ++ log3 ++ log4, rfl⟩
      · rw [if_neg hl]
        exact ⟨log2, rfl⟩

/-- A successful `notify` run decomposes into one log block per dependent, in
registration order, each block opening with the `invalidate()` call on that
dependent. -/
theorem notify_blocks : ∀ (ds : List Nat) (f : Nat) (w w' : World)
    (log : List Event) (r : Int),
    run f (.notify ds) w = (w', log, .ok r) →
    ∃ blocks : List (List Event),
      log = blocks.flatten
      ∧ blocks.length = ds.length
      ∧ ∀ n (hn : n < blocks.length),
          ∃ tl, blocks.get ⟨n, hn⟩ = .invalidateCall (ds.getD n 0) :: tl := by
  intro ds
  induction ds with
  | nil =>
    intro f w w' log r h
    cases f with
    | zero => simp [run] at h
    | succ f =>
      simp only [run] at h
      injection h with h1 h2
      injection h2 with h2 h3
      refine ⟨[], by simp [h2.symm], rfl, fun n hn => absurd hn (by simp)⟩
  | cons d rest ihrest =>
    intro f w w' log r h
    cases f with
    | zero => simp [run] at h
    | succ f =>
      simp only [run] at h
      rcases hI : run f (.invalidate d) w with ⟨w1, log1, r1⟩
      rw [hI] at h
      cases r1 with
      | error k => exact absurd h (by simp)
      | ok u =>
        dsimp only at h
        rcases hR : run f (.notify rest) w1 with ⟨w2, log2, r2⟩
        rw [hR] at h
        dsimp only at h
        injection h with h1 h2
        injection h2 with h2 h3
        subst h3
        obtain ⟨blocks, hb1, hb2, hb3⟩ := ihrest f w1 w2 log2 r hR
        cases f with
        | zero => simp [run] at hI
        | succ g =>
          obtain ⟨tl1, hhead⟩ := invalidate_log_head g d w
          rw [hI] at hhead
          dsimp only at hhead
          refine ⟨log1 :: blocks, ?_, by simp [hb2], ?_⟩
          · rw [← h2, hb1]
            simp
          · intro n hn
            cases n with
            | zero => exact ⟨tl1, by simpa using hhead⟩
            | succ n =>
              obtain ⟨tl, htl⟩ := hb3 n (by simpa using hn)
              exact ⟨tl, by simpa using htl⟩

/-- Firing a list of plain listeners leaves the world unchanged and logs
exactly one `listenerCalled` event per listener, in order. -/
theorem fire_plain : ∀ (ls : List Listener) (f : Nat) (v : Int) (w w' : World)
    (log : List Event) (r : Int),
    (∀ l ∈ ls, ∃ lid, l = Listener.plain lid) →
    run f (.fire ls v) w = (w', log, .ok r) →
    w' = w ∧ log = ls.map (fun l => listenerEvent l v) := by
  intro ls
  induction ls with
  | nil =>
    intro f v w w' log r _ h
    cases f with
    | zero => simp [run] at h
    | succ f =>
      simp only [run] at h
      injection h with h1 h2
      injection h2 with h2 h3
      exact ⟨h1.symm, by simp [h2.symm]⟩
  | cons l rest ihrest =>
    intro f v w w' log r hplain h
    obtain ⟨lid, hlid⟩ := hplain l (by simp)
    subst hlid
    cases f with
    | zero => simp [run] at h
    | succ f =>
      simp only [run] at h
      rcases hR : run f (.fire rest v) w with ⟨w1, log1, r1⟩
      rw [hR] at h
      dsimp only at h
      injection h with h1 h2
      injection h2 with h2 h3
      subst h3
      obtain ⟨hw, hl⟩ := ihrest f v w w1 log1 r (fun l hm => hplain l (by simp [hm])) hR
      exact ⟨h1 ▸ hw, by simp [← h2, hl, listenerEvent]⟩

/-- Claim C8: a write of an unequal value to a source cell stores the new
value, then calls `invalidate()` on every registered dependent in the
registration order of the dependent set, and only after all that invalidation
work does it fire the cell's own change listeners, each with the new value.
The log decomposes as the store event, the concatenated per-dependent
invalidation blocks (block `n` opening with the `invalidate()` call on the
`n`-th registered dependent), followed by one `listenerCalled` event per
listener carrying the new value; afterwards the cell holds the new value. -/
theorem C8_write_notification_order (f : Nat) (i : Nat) (v : Int) (w w' : World)
    (log : List Event) (r : Int)
    (hi : i < w.states.length)
    (hneq : ¬ (w.getS i).value = v)
    (hplain : ∀ l ∈ (w.getS i).listeners, ∃ lid, l = Listener.plain lid)
    (h : run (f + 1) (.setState i v) w = (w', log, .ok r)) :
    ∃ blocks : List (List Event),
      log = .stored i v ::
        (blocks.flatten ++ (w.getS i).listeners.map (fun l => listenerEvent l v))
      ∧ blocks.length = (w.getS i).dependents.length
      ∧ (∀ n (hn : n < blocks.length),
          ∃ tl, blocks.get ⟨n, hn⟩ = .invalidateCall ((w.getS i).dependents.getD n 0) :: tl)
      ∧ (w'.getS i).value = v := by
  simp only [run] at h
  rw [if_neg hneq] at h
  set w1 := w.updS i (fun s => { s with value := v }) with hw1
  have hdep1 : (w1.getS i).dependents = (w.getS i).dependents := by
    rw [hw1]
    exact getS_updS_proj w i (fun s => { s with value := v })
      (fun s => s.dependents) (fun _ => rfl) i
  have hlst1 : (w1.getS i).listeners = (w.getS i).listeners := by
    rw [hw1]
    exact getS_updS_proj w i (fun s => { s with value := v })
      (fun s => s.listeners) (fun _ => rfl) i
  have hval1 : (w1.getS i).value = v := by
    rw [getS_updS_self w i _ hi]
  rcases hN : run f (.notify ((w1.getS i).dependents)) w1 with ⟨w2, log2, r2⟩
  rw [hN] at h
  cases r2 with
  | error k => exact absurd h (by simp)
  | ok u =>
    dsimp only at h
    have hfr := run_frame f (.notify ((w1.getS i).dependents)) w1
    rw [hN] at hfr
    have hlst2 : (w2.getS i).listeners = (w.getS i).listeners :=
      (hfr.1.slst i).trans hlst1
    have hval2 : (w2.getS i).value = v := ((hfr.2 rfl) i).trans hval1
    rcases hF : run f (.fire ((w2.getS i).listeners) ((w2.getS i).value)) w2
      with ⟨w3, log3, r3⟩
    rw [hF] at h
    dsimp only at h
    injection h with h1 h2
    injection h2 with h2 h3
    subst h3
    obtain ⟨blocks, hb1, hb2, hb3⟩ :=
      notify_blocks ((w1.getS i).dependents) f w1 w2 log2 u hN
    obtain ⟨hw3, hlog3⟩ := fire_plain ((w2.getS i).listeners) f ((w2.getS i).value)
      w2 w3 log3 r (fun l hm => hplain l (hlst2 ▸ hm)) hF
    refine ⟨blocks, ?_, hb2.trans (by rw [hdep1]), ?_, ?_⟩
    · rw [← h2, hb1, hlog3, hlst2, hval2]
    · intro n hn
      obtain ⟨tl, htl⟩ := hb3 n hn
      exact ⟨tl, by rw [htl, hdep1]⟩
    · rw [← h1, hw3]
      exact hval2

/-- World for the C8 witness: a source with value 1, two (dirty) dependents
and one plain listener. -/
def c8wit : World :=
  ⟨[⟨1, [0, 1], [.plain 5]⟩],
   [⟨.const 0, 0, true, [], [], [], false⟩, ⟨.const 0, 0, true, [], [], [], false⟩],
   [], [], []⟩

/-- Witness for C8 at a concrete input. -/
theorem C8_write_notification_order_witness :
    ∃ blocks : List (List Event),
      ([.stored 0 2, .invalidateCall 0, .invalidateCall 1,
        .listenerCalled 5 2] : List Event)
        = .stored 0 2 ::
            (blocks.flatten ++ (c8wit.getS 0).listeners.map (fun l => listenerEvent l 2))
      ∧ blocks.length = (c8wit.getS 0).dependents.length
      ∧ (∀ n (hn : n < blocks.length),
          ∃ tl, blocks.get ⟨n, hn⟩
            = .invalidateCall ((c8wit.getS 0).dependents.getD n 0) :: tl)
      ∧ (((⟨[⟨2, [0, 1], [.plain 5]⟩],
            [⟨.const 0, 0, true, [], [], [], false⟩,
             ⟨.const 0, 0, true, [], [], [], false⟩],
            [], [], []⟩ : World)).getS 0).value = 2 :=
  C8_write_notification_order 3 0 2 c8wit _ _ 0
    (by decide) (by decide)
    (fun l hm => ⟨5, by simpa [c8wit, World.getS, List.getD] using hm⟩)
    (by decide)

/-!
### Stratified worlds

For the memoization and fault-atomicity claims the derivations must form a
well-founded dependency order (a derivation that transitively reads itself
diverges in the source, too): every computed reads only lower-indexed
computeds.
-/

/-- The computed cells directly read by an expression. -/
def creads : Expr → List Nat
  | .const _ => []
  | .readStateValue _ => []
  | .readStateUse _ => []
  | .readComputedValue j => [j]
  | .add a b => creads a ++ creads b
  | .mul a b => creads a ++ creads b
  | .throwErr => []

/-- Every derivation reads only computeds with a smaller index. -/
def StratifiedW (w : World) : Prop :=
  ∀ j, ∀ k ∈ creads ((w.getC j).expr), k < j

/-- It is enough to check stratification for the cells actually present. -/
theorem stratifiedW_of_all (w : World)
    (h : ∀ j, j < w.comps.length → ∀ k ∈ creads ((w.getC j).expr), k < j) :
    StratifiedW w := by
  intro j k hk
  rcases lt_or_ge j w.comps.length with hj | hj
  · exact h j hj k hk
  · rw [getC_default_of_le w j hj] at hk
    simp [defaultC, creads] at hk

theorem stratifiedW_frame {w w' : World} (hs : StratifiedW w)
    (hf : ∀ j, (w'.getC j).expr = (w.getC j).expr) : StratifiedW w' :=
  fun j k hk => hs j k (by rwa [hf j] at hk)

/-- The recompute-sensitive fields of a computed cell: cached value, dirty
flag, dependency set. -/
def cfr (c : CCell) : Int × Bool × List Obs := (c.cached, c.isDirty, c.dependencies)

/-- Holds when a step has left cell `m`'s cached value, dirty flag and dependency set untouched. -/
def CompFrame (m : Nat) (w w' : World) : Prop := cfr (w'.getC m) = cfr (w.getC m)

theorem compFrame_refl (m : Nat) (w : World) : CompFrame m w w := rfl

theorem compFrame_trans {m : Nat} {w w₁ w₂ : World}
    (h1 : CompFrame m w w₁) (h2 : CompFrame m w₁ w₂) : CompFrame m w w₂ :=
  Eq.trans h2 h1

theorem compFrame_updS (m : Nat) (w : World) (i : Nat) (f : SCell → SCell) :
    CompFrame m w (w.updS i f) := rfl

theorem compFrame_updC_proj (w : World) (j : Nat) (f : CCell → CCell)
    (h : ∀ c, cfr (f c) = cfr c) (m : Nat) : CompFrame m w (w.updC j f) :=
  getC_updC_proj w j f cfr h m

theorem compFrame_updC_ne (w : World) (j : Nat) (f : CCell → CCell) (m : Nat)
    (h : j ≠ m) : CompFrame m w (w.updC j f) :=
  congrArg cfr (getC_updC_ne w j m f h)

theorem compFrame_addDependent (o : Obs) (d : Nat) (w : World) (m : Nat) :
    CompFrame m w (addDependent o d w) := by
  cases o with
  | src i => exact compFrame_updS m w i _
  | cmp j =>
    exact compFrame_updC_proj w j
      (fun c => { c with dependents := insertUnique d c.dependents }) (fun _ => rfl) m

theorem compFrame_removeDependent (o : Obs) (d : Nat) (w : World) (m : Nat) :
    CompFrame m w (removeDependent o d w) := by
  cases o with
  | src i => exact compFrame_updS m w i _
  | cmp j =>
    exact compFrame_updC_proj w j
      (fun c => { c with dependents := c.dependents.erase d }) (fun _ => rfl) m

theorem compFrame_trackDependency (o : Obs) (w : World) (m : Nat) :
    CompFrame m w (trackDependency o w) := by
  obtain ⟨st, cs, os, sk, cd⟩ := w
  cases sk with
  | nil => exact compFrame_refl m _
  | cons d t =>
    show CompFrame m _ (addDependent o d _)
    exact compFrame_trans (compFrame_refl m _) (compFrame_addDependent o d _ m)

theorem compFrame_removeDependent_foldl (ds : List Obs) (j : Nat) (m : Nat) :
    ∀ w : World, CompFrame m w (ds.foldl (fun acc o => removeDependent o j acc) w) := by
  induction ds with
  | nil => intro w; exact compFrame_refl m w
  | cons o rest ih =>
    intro w
    exact compFrame_trans (compFrame_removeDependent o j w m) (ih _)

theorem compFrame_clearDependencies (j : Nat) (w : World) (m : Nat) (h : j ≠ m) :
    CompFrame m w (clearDependencies j w) := by
  unfold clearDependencies
  exact compFrame_trans (compFrame_removeDependent_foldl _ j m w) (compFrame_updC_ne _ j _ m h)

/-- The bound kit for the evaluation fragment of `run`: which computed cells
a call may recompute. -/
def evalBound : Call → Option (List Nat)
  | .eval e => some (creads e)
  | .readValue (.src _) => some []
  | .readValue (.cmp j) => some [j]
  | .peek j => some [j]
  | .recompute j => some [j]
  | _ => none

/-- In a stratified world, the evaluation fragment only ever runs derivations
of cells at or below its bound, and leaves the cached value, dirty flag and
dependency set of every cell above the bound untouched — on success and on
failure alike. -/
theorem run_strat : ∀ (f : Nat) (c : Call) (w : World), StratifiedW w →
    ∀ ks, evalBound c = some ks →
    (∀ m, Event.computeRun m ∈ (run f c w).2.1 → ∃ k ∈ ks, m ≤ k)
    ∧ (∀ m, (∀ k ∈ ks, k < m) → CompFrame m w (run f c w).1) := by
  intro f
  induction f with
  | zero =>
    intro c w _ ks _
    exact ⟨fun m hm => absurd hm (by simp [run]), fun m _ => compFrame_refl m w⟩
  | succ f ih =>
    intro c w hs ks hks
    cases c with
    | eval e =>
      injection hks with hks
      subst hks
      cases e with
      | const n =>
        exact ⟨fun m hm => absurd hm (by simp [run]), fun m _ => compFrame_refl m w⟩
      | readStateValue i =>
        exact ⟨fun m hm => absurd hm (by simp [run]), fun m _ => compFrame_refl m w⟩
      | readStateUse i =>
        refine ⟨fun m hm => absurd hm (by simp [run]), fun m _ => ?_⟩
        exact compFrame_trackDependency (.src i) w m
      | readComputedValue j =>
        exact ih (.readValue (.cmp j)) w hs [j] rfl
      | throwErr =>
        exact ⟨fun m hm => absurd hm (by simp [run]), fun m _ => compFrame_refl m w⟩
      | add a b =>
        simp only [run]
        rcases hA : run f (.eval a) w with ⟨w1, log1, r1⟩
        have sA := ih (.eval a) w hs (creads a) rfl
        rw [hA] at sA
        have hs1 : StratifiedW w1 := by
          have hfr := run_frame f (.eval a) w
          rw [hA] at hfr
          exact stratifiedW_frame hs hfr.1.cexpr
        cases r1 with
        | error k =>
          refine ⟨fun m hm => ?_, fun m hm => ?_⟩
          · obtain ⟨k, hk, hmk⟩ := sA.1 m hm
            exact ⟨k, by simp [creads, hk], hmk⟩
          · exact sA.2 m (fun k hk => hm k (by simp [creads, hk]))
        | ok va =>
          dsimp only
          rcases hB : run f (.eval b) w1 with ⟨w2, log2, r2⟩
          have sB := ih (.eval b) w1 hs1 (creads b) rfl
          rw [hB] at sB
          cases r2 with
          | error k =>
            refine ⟨fun m hm => ?_, fun m hm => ?_⟩
            · rcases List.mem_append.1 hm with hm1 | hm2
              · obtain ⟨k, hk, hmk⟩ := sA.1 m hm1
                exact ⟨k, by simp [creads, hk], hmk⟩
              · obtain ⟨k, hk, hmk⟩ := sB.1 m hm2
                exact ⟨k, by simp [creads, hk], hmk⟩
            · exact compFrame_trans (sA.2 m (fun k hk => hm k (by simp [creads, hk])))
                (sB.2 m (fun k hk => hm k (by simp [creads, hk])))
          | ok vb =>
            refine ⟨fun m hm => ?_, fun m hm => ?_⟩
            · rcases List.mem_append.1 hm with hm1 | hm2
              · obtain ⟨k, hk, hmk⟩ := sA.1 m hm1
                exact ⟨k, by simp [creads, hk], hmk⟩
              · obtain ⟨k, hk, hmk⟩ := sB.1 m hm2
                exact ⟨k, by simp [creads, hk], hmk⟩
            · exact compFrame_trans (sA.2 m (fun k hk => hm k (by simp [creads, hk])))
                (sB.2 m (fun k hk => hm k (by simp [creads, hk])))
      | mul a b =>
        simp only [run]
        rcases hA : run f (.eval a) w with ⟨w1, log1, r1⟩
        have sA := ih (.eval a) w hs (creads a) rfl
        rw [hA] at sA
        have hs1 : StratifiedW w1 := by
          have hfr := run_frame f (.eval a) w
          rw [hA] at hfr
          exact stratifiedW_frame hs hfr.1.cexpr
        cases r1 with
        | error k =>
          refine ⟨fun m hm => ?_, fun m hm => ?_⟩
          · obtain ⟨k, hk, hmk⟩ := sA.1 m hm
            exact ⟨k, by simp [creads, hk], hmk⟩
          · exact sA.2 m (fun k hk => hm k (by simp [creads, hk]))
        | ok va =>
          dsimp only
          rcases hB : run f (.eval b) w1 with ⟨w2, log2, r2⟩
          have sB := ih (.eval b) w1 hs1 (creads b) rfl
          rw [hB] at sB
          cases r2 with
          | error k =>
            refine ⟨fun m hm => ?_, fun m hm => ?_⟩
            · rcases List.mem_append.1 hm with hm1 | hm2
              · obtain ⟨k, hk, hmk⟩ := sA.1 m hm1
                exact ⟨k, by simp [creads, hk], hmk⟩
              · obtain ⟨k, hk, hmk⟩ := sB.1 m hm2
                exact ⟨k, by simp [creads, hk], hmk⟩
            · exact compFrame_trans (sA.2 m (fun k hk => hm k (by simp [creads, hk])))
                (sB.2 m (fun k hk => hm k (by simp [creads, hk])))
          | ok vb =>
            refine ⟨fun m hm => ?_, fun m hm => ?_⟩
            · rcases List.mem_append.1 hm with hm1 | hm2
              · obtain ⟨k, hk, hmk⟩ := sA.1 m hm1
                exact ⟨k, by simp [creads, hk], hmk⟩
              · obtain ⟨k, hk, hmk⟩ := sB.1 m hm2
                exact ⟨k, by simp [creads, hk], hmk⟩
            · exact compFrame_trans (sA.2 m (fun k hk => hm k (by simp [creads, hk])))
                (sB.2 m (fun k hk => hm k (by simp [creads, hk])))
    | readValue o =>
      cases o with
      | src i =>
        injection hks with hks
        subst hks
        exact ⟨fun m hm => absurd hm (by simp [run]), fun m _ => compFrame_refl m w⟩
      | cmp j =>
        injection hks with hks
        subst hks
        have hs1 : StratifiedW (trackDependency (.cmp j) w) :=
          stratifiedW_frame hs (frameNV_trackDependency (.cmp j) w).cexpr
        have sP := ih (.peek j) (trackDependency (.cmp j) w) hs1 [j] rfl
        refine ⟨sP.1, fun m hm => ?_⟩
        exact compFrame_trans (compFrame_trackDependency (.cmp j) w m) (sP.2 m hm)
    | peek j =>
      injection hks with hks
      subst hks
      simp only [run]
      by_cases hd : (w.getC j).isDirty = true
      · rw [if_pos hd]
        rcases hR : run f (.recompute j) w with ⟨w1, log1, r1⟩
        have sR := ih (.recompute j) w hs [j] rfl
        rw [hR] at sR
        cases r1 with
        | error k => exact sR
        | ok v => exact sR
      · rw [if_neg hd]
        exact ⟨fun m hm => absurd hm (by simp), fun m _ => compFrame_refl m w⟩
    | recompute j =>
      injection hks with hks
      subst hks
      simp only [run]
      set w1 := clearDependencies j w with hw1
      set w2 : World := { w1 with stack := j :: w1.stack, curDeps := [] } with hw2
      have hs1 : StratifiedW w1 := stratifiedW_frame hs (frameNV_clearDependencies j w).cexpr
      have hs2 : StratifiedW w2 := fun j' k hk => hs1 j' k hk
      have hread : ∀ k ∈ creads ((w1.getC j).expr), k < j := by
        intro k hk
        exact hs j k (by rwa [(frameNV_clearDependencies j w).cexpr j] at hk)
      rcases hE : run f (.eval ((w1.getC j).expr)) w2 with ⟨w3, log3, r3⟩
      have sE := ih (.eval ((w1.getC j).expr)) w2 hs2 (creads ((w1.getC j).expr)) rfl
      rw [hE] at sE
      have hlog : ∀ m, Event.computeRun m ∈ Event.computeRun j :: log3 →
          ∃ k ∈ [j], m ≤ k := by
        intro m hm
        rcases List.mem_cons.1 hm with hm1 | hm2
        · exact ⟨j, by simp, le_of_eq (by injection hm1)⟩
        · obtain ⟨k, hk, hmk⟩ := sE.1 m hm2
          exact ⟨j, by simp, le_trans hmk (le_of_lt (hread k hk))⟩
      have hcf : ∀ m, (∀ k ∈ [j], k < m) → CompFrame m w w3 := by
        intro m hm
        have hjm : j < m := hm j (by simp)
        have c1 : CompFrame m w w1 := compFrame_clearDependencies j w m (Nat.ne_of_lt hjm)
        have c2 : CompFrame m w1 w2 := compFrame_refl m _
        have c3 : CompFrame m w2 w3 :=
          sE.2 m (fun k hk => lt_trans (hread k hk) hjm)
        exact compFrame_trans (compFrame_trans c1 c2) c3
      cases r3 with
      | error k =>
        dsimp only
        refine ⟨hlog, fun m hm => ?_⟩
        exact compFrame_trans (hcf m hm) (compFrame_refl m _)
      | ok v =>
        dsimp only
        refine ⟨hlog, fun m hm => ?_⟩
        have hjm : j < m := hm j (by simp)
        refine compFrame_trans (hcf m hm) ?_
        exact compFrame_trans (compFrame_refl m _)
          (compFrame_updC_ne _ j _ m (Nat.ne_of_lt hjm))
    | invalidate j => exact absurd hks (by simp [evalBound])
    | notify ds => exact absurd hks (by simp [evalBound])
    | fire ls v => exact absurd hks (by simp [evalBound])
    | setState i v => exact absurd hks (by simp [evalBound])

/-!
### Claim C4 — memoization of derived cells
-/

/-- A successful `recompute` leaves the cell clean and runs its derivation
function exactly once (in a stratified world). -/
theorem recompute_ok_shape (g : Nat) (j : Nat) (w wr : World) (logr : List Event)
    (u : Int) (hstrat : StratifiedW w)
    (h : run g (.recompute j) w = (wr, logr, .ok u)) :
    (wr.getC j).isDirty = false ∧ logr.count (Event.computeRun j) = 1 := by
  cases g with
  | zero => simp [run] at h
  | succ g =>
    simp only [run] at h
    set w1 := clearDependencies j w with hw1
    set w2 : World := { w1 with stack := j :: w1.stack, curDeps := [] } with hw2
    rcases hE : run g (.eval ((w1.getC j).expr)) w2 with ⟨w3, log3, r3⟩
    rw [hE] at h
    cases r3 with
    | error k => exact absurd h (by simp)
    | ok v =>
      dsimp only at h
      injection h with h1 h2
      injection h2 with h2 h3
      have hs2 : StratifiedW w2 := by
        have hh := stratifiedW_frame hstrat (frameNV_clearDependencies j w).cexpr
        exact fun j' k hk => hh j' k hk
      have hread : ∀ k ∈ creads ((w1.getC j).expr), k < j := fun k hk =>
        hstrat j k (by rwa [(frameNV_clearDependencies j w).cexpr j] at hk)
      have sE := run_strat g (.eval ((w1.getC j).expr)) w2 hs2 (creads ((w1.getC j).expr)) rfl
      rw [hE] at sE
      have hnot : Event.computeRun j ∉ log3 := by
        intro hmem
        obtain ⟨k, hk, hjk⟩ := sE.1 j hmem
        exact absurd (lt_of_le_of_lt hjk (hread k hk)) (lt_irrefl j)
      constructor
      · rw [← h1]
        set w4 : World := { w3 with stack := w3.stack.tail, curDeps := [] } with hw4
        rcases lt_or_ge j w4.comps.length with hlt | hge
        · rw [getC_updC_self w4 j _ hlt]
        · rw [updC_eq_of_le w4 j _ hge, getC_default_of_le w4 j hge]
          rfl
      · rw [← h2]
        have hz : log3.count (Event.computeRun j) = 0 := List.count_eq_zero.2 hnot
        simp [List.count_cons, hz]

/-- Claim C4: for a derived cell in a stratified world, two `peek` calls with
no intervening write return the same value both times, the second call
returns the cached value without touching the world or running anything
(the dirty flag is false after the first call), and the derivation function
of the cell runs at most once across the two calls. -/
theorem C4_peek_memoization (f f₂ : Nat) (j : Nat) (w w₁ : World)
    (log : List Event) (v : Int)
    (hstrat : StratifiedW w)
    (h : run f (.peek j) w = (w₁, log, .ok v)) :
    run (f₂ + 1) (.peek j) w₁ = (w₁, [], .ok v)
    ∧ log.count (Event.computeRun j) ≤ 1 := by
  cases f with
  | zero => simp [run] at h
  | succ g =>
    simp only [run] at h
    by_cases hd : (w.getC j).isDirty = true
    · rw [if_pos hd] at h
      rcases hR : run g (.recompute j) w with ⟨wr, logr, rr⟩
      rw [hR] at h
      cases rr with
      | error k => exact absurd h (by simp)
      | ok u =>
        dsimp only at h
        injection h with h1 h2
        injection h2 with h2 h3
        injection h3 with h3
        obtain ⟨hdirty, hcount⟩ := recompute_ok_shape g j w wr logr u hstrat hR
        subst h1
        constructor
        · simp only [run]
          rw [if_neg (by simp [hdirty]), h3]
        · rw [← h2]
          exact le_of_eq hcount
    · rw [if_neg hd] at h
      injection h with h1 h2
      injection h2 with h2 h3
      injection h3 with h3
      subst h1
      constructor
      · simp only [run]
        rw [if_neg hd, h3]
      · rw [← h2]
        simp

/-- World for the C4 witness: one source (value 5) and one dirty computed
reading it. -/
def c4wit : World :=
  ⟨[⟨5, [], []⟩], [⟨.readStateUse 0, 0, true, [], [], [], false⟩], [], [], []⟩

/-- Witness for C4 at a concrete input. -/
theorem C4_peek_memoization_witness :
    run 1 (.peek 0) (run 5 (.peek 0) c4wit).1 = ((run 5 (.peek 0) c4wit).1, [], .ok 5)
    ∧ ([Event.computeRun 0] : List Event).count (Event.computeRun 0) ≤ 1 :=
  C4_peek_memoization 5 0 0 c4wit (run 5 (.peek 0) c4wit).1 [Event.computeRun 0] 5
    (stratifiedW_of_all c4wit (by decide)) (by decide)

/-!
### Claim C5 — derivation-fault atomicity (amended part)
-/

theorem compFrame_cached {m : Nat} {w w' : World} (h : CompFrame m w w') :
    (w'.getC m).cached = (w.getC m).cached := congrArg Prod.fst h

theorem compFrame_dirty {m : Nat} {w w' : World} (h : CompFrame m w w') :
    (w'.getC m).isDirty = (w.getC m).isDirty := congrArg (fun p => p.2.1) h

theorem compFrame_deps {m : Nat} {w w' : World} (h : CompFrame m w w') :
    (w'.getC m).dependencies = (w.getC m).dependencies := congrArg (fun p => p.2.2) h

theorem comps_length_removeDependent (o : Obs) (d : Nat) (w : World) :
    (removeDependent o d w).comps.length = w.comps.length := by
  cases o with
  | src i => rfl
  | cmp j => simp [removeDependent, World.updC]

theorem comps_length_removeDependent_foldl (ds : List Obs) (j : Nat) :
    ∀ w : World,
      (ds.foldl (fun acc o => removeDependent o j acc) w).comps.length
        = w.comps.length := by
  induction ds with
  | nil => intro w; rfl
  | cons o rest ih =>
    intro w
    exact (ih _).trans (comps_length_removeDependent o j w)

theorem comps_length_clearDependencies (j : Nat) (w : World) :
    (clearDependencies j w).comps.length = w.comps.length := by
  unfold clearDependencies
  simp [World.updC, comps_length_removeDependent_foldl]

/-- What `clearDependencies` does to its own cell: the cached value and the
dirty flag are untouched and the dependency set becomes empty (the cell index
is in range whenever the cell is dirty). -/
theorem clearDependencies_self (j : Nat) (w : World) (hj : j < w.comps.length) :
    ((clearDependencies j w).getC j).cached = (w.getC j).cached
    ∧ ((clearDependencies j w).getC j).isDirty = (w.getC j).isDirty
    ∧ ((clearDependencies j w).getC j).dependencies = [] := by
  have hfold := compFrame_removeDependent_foldl ((w.getC j).dependencies) j j w
  set wf := ((w.getC j).dependencies).foldl (fun acc o => removeDependent o j acc) w with hwf
  have hjf : j < wf.comps.length := by
    rw [comps_length_removeDependent_foldl]
    exact hj
  have hself : (clearDependencies j w).getC j
      = { (wf.getC j) with dependencies := [] } := by
    unfold clearDependencies
    rw [← hwf, getC_updC_self wf j _ hjf]
  refine ⟨?_, ?_, ?_⟩
  · rw [hself]
    exact compFrame_cached hfold
  · rw [hself]
    exact compFrame_dirty hfold
  · rw [hself]

/-- Claim C5, amended: when the derivation function throws during a
recompute, the exception propagates to the caller, the tracker stack is
popped and the accumulator cleared on the exit path, and the cell is left
dirty with its previous cached value so a later read retries — but the
previous dependency edges are NOT kept: `clearDependencies` ran before the
tracked evaluation, so after the fault the cell's dependency set is empty. -/
theorem C5_fault_atomicity_amended (f : Nat) (j : Nat) (w w₂ : World)
    (log : List Event)
    (hstrat : StratifiedW w)
    (hdirty : (w.getC j).isDirty = true)
    (h : run f (.eval (((clearDependencies j w).getC j).expr))
        { clearDependencies j w with
          stack := j :: (clearDependencies j w).stack, curDeps := [] }
        = (w₂, log, .error .fault)) :
    run (f + 2) (.peek j) w
        = ({ w₂ with stack := w₂.stack.tail, curDeps := [] },
           .computeRun j :: log, .error .fault)
    ∧ (w₂.getC j).isDirty = true
    ∧ (w₂.getC j).cached = (w.getC j).cached
    ∧ (w₂.getC j).dependencies = []
    ∧ ({ w₂ with stack := w₂.stack.tail, curDeps := [] } : World).stack = w.stack := by
  have hj : j < w.comps.length := by
    by_contra hle
    rw [getC_default_of_le w j (le_of_not_lt hle)] at hdirty
    exact absurd hdirty (by decide)
  set w1 := clearDependencies j w with hw1
  set env : World := { w1 with stack := j :: w1.stack, curDeps := [] } with henv
  obtain ⟨hcch, hdrt, hdps⟩ := clearDependencies_self j w hj
  have hsenv : StratifiedW env := by
    have hh := stratifiedW_frame hstrat (frameNV_clearDependencies j w).cexpr
    exact fun j' k hk => hh j' k hk
  have hread : ∀ k ∈ creads ((w1.getC j).expr), k < j := fun k hk =>
    hstrat j k (by rwa [(frameNV_clearDependencies j w).cexpr j] at hk)
  have sE := run_strat f (.eval ((w1.getC j).expr)) env hsenv (creads ((w1.getC j).expr)) rfl
  rw [h] at sE
  have hcf : CompFrame j env w₂ := sE.2 j (fun k hk => hread k hk)
  have hfr := run_frame f (.eval ((w1.getC j).expr)) env
  rw [h] at hfr
  have hstk2 : w₂.stack = j :: w1.stack := hfr.1.stk
  refine ⟨?_, ?_, ?_, ?_, ?_⟩
  · simp only [run]
    rw [if_pos hdirty, h]
  · rw [compFrame_dirty hcf]
    show (w1.getC j).isDirty = true
    rw [hdrt]
    exact hdirty
  · rw [compFrame_cached hcf]
    show (w1.getC j).cached = (w.getC j).cached
    exact hcch
  · rw [compFrame_deps hcf]
    exact hdps
  · show w₂.stack.tail = w.stack
    rw [hstk2]
    show w1.stack = w.stack
    exact (frameNV_clearDependencies j w).stk

/-- Witness for the amended C5 at a concrete input: the cell of `c5w` whose
derivation throws immediately. -/
theorem C5_fault_atomicity_amended_witness :
    run 5 (.peek 0) c5w
        = (⟨[⟨7, [], []⟩], [⟨.throwErr, 42, true, [], [], [], false⟩], [], [], []⟩,
           [.computeRun 0], .error .fault)
    ∧ ((⟨[⟨7, [], []⟩], [⟨.throwErr, 42, true, [], [], [], false⟩],
         [], [0], []⟩ : World).getC 0).isDirty = true
    ∧ ((⟨[⟨7, [], []⟩], [⟨.throwErr, 42, true, [], [], [], false⟩],
         [], [0], []⟩ : World).getC 0).cached = (c5w.getC 0).cached
    ∧ ((⟨[⟨7, [], []⟩], [⟨.throwErr, 42, true, [], [], [], false⟩],
         [], [0], []⟩ : World).getC 0).dependencies = []
    ∧ (({ (⟨[⟨7, [], []⟩], [⟨.throwErr, 42, true, [], [], [], false⟩],
           [], [0], []⟩ : World) with
          stack := ([0] : List Nat).tail, curDeps := [] } : World)).stack = c5w.stack := by
  have hh := C5_fault_atomicity_amended 3 0 c5w
    ⟨[⟨7, [], []⟩], [⟨.throwErr, 42, true, [], [], [], false⟩], [], [0], []⟩
    [] (stratifiedW_of_all c5w (by decide)) (by decide) (by decide)
  exact hh

/-- Claim C10: setting `forceEager := true` on a dirty derived cell does not
recompute it: the setter delegates to `invalidate()`, which returns
immediately because the cell is already dirty.  The resulting world differs
from the original only in the eagerness flag, and the only event is the
`invalidate()` call itself — no derivation run, no listener invocation. -/
theorem C10_forceEager_on_dirty_defers (f j : Nat) (w : World)
    (h : (w.getC j).isDirty = true) :
    setForceEager (f + 1) j true w
      = (w.updC j (fun c => { c with forceEager := true }),
         [.invalidateCall j], .ok 0) := by
  have hj : j < w.comps.length := by
    by_contra hle
    rw [getC_default_of_le w j (le_of_not_lt hle)] at h
    exact absurd h (by decide)
  have h1 : ((w.updC j fun c => { c with forceEager := true }).getC j).isDirty = true := by
    rw [getC_updC_self w j _ hj]; exact h
  simp [setForceEager, run, h1]

/-- Witness for C10 at a concrete input. -/
theorem C10_forceEager_on_dirty_defers_witness :
    ((⟨[], [⟨.const 0, 0, true, [], [], [], false⟩], [], [], []⟩ : World).getC 0).isDirty = true
    ∧ setForceEager 1 0 true ⟨[], [⟨.const 0, 0, true, [], [], [], false⟩], [], [], []⟩
        = (⟨[], [⟨.const 0, 0, true, [], [], [], true⟩], [], [], []⟩,
           [.invalidateCall 0], .ok 0) := by
  refine ⟨rfl, ?_⟩
  have := C10_forceEager_on_dirty_defers 0 0
    ⟨[], [⟨.const 0, 0, true, [], [], [], false⟩], [], [], []⟩ rfl
  simpa [World.updC, World.getC, List.getD] using this

/-!
### Claim C9 — subscription teardown
-/

theorem getObserver_default_of_le (w : World) (k : Nat)
    (h : w.observers.length ≤ k) : w.getObserver k = defaultObs := by
  simp [World.getObserver, List.getD, List.getElem?_eq_none h]

theorem getObserver_updObserver_self (w : World) (k : Nat)
    (f : ObserverRec → ObserverRec) (h : k < w.observers.length) :
    (w.updObserver k f).getObserver k = f (w.getObserver k) := by
  simp [World.getObserver, World.updObserver, List.getD, List.getElem?_set_self',
    List.getElem?_eq_getElem h]

theorem updObserver_eq_of_le (w : World) (k : Nat) (f : ObserverRec → ObserverRec)
    (h : w.observers.length ≤ k) : w.updObserver k f = w := by
  simp [World.updObserver, List.set_eq_of_length_le h]

theorem observers_removeListener (o : Obs) (l : Listener) (w : World) :
    (removeListener o l w).observers = w.observers := by
  cases o <;> rfl

theorem observers_addListener (o : Obs) (l : Listener) (w : World) :
    (addListener o l w).observers = w.observers := by
  cases o <;> rfl

theorem erase_insertUnique {α : Type} [DecidableEq α] (x : α) (l : List α)
    (h : x ∉ l) : (insertUnique x l).erase x = l := by
  unfold insertUnique
  rw [if_neg h, List.erase_append_right _ h, List.erase_cons_head]
  simp

/-- No listener set anywhere in the world contains the entry `x`. -/
def NoListener (x : Listener) (w : World) : Prop :=
  (∀ i, x ∉ (w.getS i).listeners) ∧ (∀ j, x ∉ (w.getC j).listeners)

/-- The wrapper lambda of observer `k` is registered nowhere. -/
def WrapFree (k : Nat) (w : World) : Prop := NoListener (.wrap k) w

theorem wrapFree_frame {k : Nat} {w w' : World} (h : WrapFree k w)
    (hf : FrameNV w w') : WrapFree k w' :=
  ⟨fun i => (hf.slst i) ▸ h.1 i, fun j => (hf.clst j) ▸ h.2 j⟩

/-- Registering a fresh listener entry and then removing it restores a world
with that entry nowhere. -/
theorem noListener_remove_add (o : Obs) (x : Listener) (w : World)
    (h : NoListener x w) :
    NoListener x (removeListener o x (addListener o x w)) := by
  cases o with
  | src t =>
    refine ⟨?_, fun j => h.2 j⟩
    intro i
    rcases lt_or_ge t w.states.length with hb | hb
    · have hb' : t < (addListener (.src t) x w).states.length := by
        simpa [addListener, World.updS] using hb
      by_cases hit : i = t
      · subst hit
        show x ∉ (((addListener (.src i) x w).updS i
            (fun s => { s with listeners := s.listeners.erase x })).getS i).listeners
        rw [getS_updS_self _ i _ hb']
        show x ∉ (((w.updS i (fun s => { s with listeners := insertUnique x s.listeners })).getS i).listeners).erase x
        rw [getS_updS_self _ i _ hb, erase_insertUnique x _ (h.1 i)]
        exact h.1 i
      · show x ∉ (((addListener (.src t) x w).updS t
            (fun s => { s with listeners := s.listeners.erase x })).getS i).listeners
        rw [getS_updS_ne _ t i _ (fun he => hit he.symm)]
        show x ∉ ((w.updS t (fun s => { s with listeners := insertUnique x s.listeners })).getS i).listeners
        rw [getS_updS_ne _ t i _ (fun he => hit he.symm)]
        exact h.1 i
    · show x ∉ (((addListener (.src t) x w).updS t
          (fun s => { s with listeners := s.listeners.erase x })).getS i).listeners
      have hb' : (addListener (.src t) x w).states.length ≤ t := by
        simpa [addListener, World.updS] using hb
      rw [updS_eq_of_le _ t _ hb']
      show x ∉ ((w.updS t (fun s => { s with listeners := insertUnique x s.listeners })).getS i).listeners
      rw [updS_eq_of_le _ t _ hb]
      exact h.1 i
  | cmp t =>
    refine ⟨fun i => h.1 i, ?_⟩
    intro j
    rcases lt_or_ge t w.comps.length with hb | hb
    · have hb' : t < (addListener (.cmp t) x w).comps.length := by
        simpa [addListener, World.updC] using hb
      by_cases hjt : j = t
      · subst hjt
        show x ∉ (((addListener (.cmp j) x w).updC j
            (fun c => { c with listeners := c.listeners.erase x })).getC j).listeners
        rw [getC_updC_self _ j _ hb']
        show x ∉ (((w.updC j (fun c => { c with listeners := insertUnique x c.listeners })).getC j).listeners).erase x
        rw [getC_updC_self _ j _ hb, erase_insertUnique x _ (h.2 j)]
        exact h.2 j
      · show x ∉ (((addListener (.cmp t) x w).updC t
            (fun c => { c with listeners := c.listeners.erase x })).getC j).listeners
        rw [getC_updC_ne _ t j _ (fun he => hjt he.symm)]
        show x ∉ ((w.updC t (fun c => { c with listeners := insertUnique x c.listeners })).getC j).listeners
        rw [getC_updC_ne _ t j _ (fun he => hjt he.symm)]
        exact h.2 j
    · show x ∉ (((addListener (.cmp t) x w).updC t
          (fun c => { c with listeners := c.listeners.erase x })).getC j).listeners
      have hb' : (addListener (.cmp t) x w).comps.length ≤ t := by
        simpa [addListener, World.updC] using hb
      rw [updC_eq_of_le _ t _ hb']
      show x ∉ ((w.updC t (fun c => { c with listeners := insertUnique x c.listeners })).getC j).listeners
      rw [updC_eq_of_le _ t _ hb]
      exact h.2 j

/-- The side condition for `run` calls: a `fire` call must not carry the
wrapper of observer `k` in its snapshot. -/
def fireOK (k : Nat) : Call → Prop
  | .fire ls _ => Listener.wrap k ∉ ls
  | _ => True

/-- If observer `k`'s wrapper is registered nowhere, no run of the
interpreter ever invokes its callback. -/
theorem run_no_cb (k : Nat) : ∀ (f : Nat) (c : Call) (w : World),
    WrapFree k w → fireOK k c →
    ∀ v, Event.cbCalled k v ∉ (run f c w).2.1 := by
  intro f
  induction f with
  | zero => intro c w _ _ v; simp [run]
  | succ f ih =>
    intro c w hfree hfk v
    cases c with
    | eval e =>
      cases e with
      | const n => simp [run]
      | readStateValue i => simp [run]
      | readStateUse i => simp [run]
      | throwErr => simp [run]
      | readComputedValue j =>
        simp only [run]
        exact ih (.readValue (.cmp j)) w hfree trivial v
      | add a b =>
        simp only [run]
        rcases hA : run f (.eval a) w with ⟨w1, log1, r1⟩
        have nA := ih (.eval a) w hfree trivial
        rw [hA] at nA
        have hfree1 : WrapFree k w1 := by
          have hfr := run_frame f (.eval a) w
          rw [hA] at hfr
          exact wrapFree_frame hfree hfr.1
        cases r1 with
        | error e => exact nA v
        | ok va =>
          dsimp only
          rcases hB : run f (.eval b) w1 with ⟨w2, log2, r2⟩
          have nB := ih (.eval b) w1 hfree1 trivial
          rw [hB] at nB
          cases r2 with
          | error e =>
            intro hm
            rcases List.mem_append.1 hm with hm | hm
            · exact nA v hm
            · exact nB v hm
          | ok vb =>
            intro hm
            rcases List.mem_append.1 hm with hm | hm
            · exact nA v hm
            · exact nB v hm
      | mul a b =>
        simp only [run]
        rcases hA : run f (.eval a) w with ⟨w1, log1, r1⟩
        have nA := ih (.eval a) w hfree trivial
        rw [hA] at nA
        have hfree1 : WrapFree k w1 := by
          have hfr := run_frame f (.eval a) w
          rw [hA] at hfr
          exact wrapFree_frame hfree hfr.1
        cases r1 with
        | error e => exact nA v
        | ok va =>
          dsimp only
          rcases hB : run f (.eval b) w1 with ⟨w2, log2, r2⟩
          have nB := ih (.eval b) w1 hfree1 trivial
          rw [hB] at nB
          cases r2 with
          | error e =>
            intro hm
            rcases List.mem_append.1 hm with hm | hm
            · exact nA v hm
            · exact nB v hm
          | ok vb =>
            intro hm
            rcases List.mem_append.1 hm with hm | hm
            · exact nA v hm
            · exact nB v hm
    | readValue o =>
      cases o with
      | src i => simp [run]
      | cmp j =>
        simp only [run]
        have hfree1 : WrapFree k (trackDependency (.cmp j) w) :=
          wrapFree_frame hfree (frameNV_trackDependency (.cmp j) w)
        exact ih (.peek j) _ hfree1 trivial v
    | peek j =>
      simp only [run]
      by_cases hd : (w.getC j).isDirty = true
      · rw [if_pos hd]
        rcases hR : run f (.recompute j) w with ⟨w1, log1, r1⟩
        have nR := ih (.recompute j) w hfree trivial
        rw [hR] at nR
        cases r1 with
        | error e => exact nR v
        | ok u => exact nR v
      · rw [if_neg hd]
        simp
    | recompute j =>
      simp only [run]
      set w1 := clearDependencies j w with hw1
      set w2 : World := { w1 with stack := j :: w1.stack, curDeps := [] } with hw2
      have hfree2 : WrapFree k w2 := by
        have h1 : WrapFree k w1 := wrapFree_frame hfree (frameNV_clearDependencies j w)
        exact ⟨fun i => h1.1 i, fun j' => h1.2 j'⟩
      rcases hE : run f (.eval ((w1.getC j).expr)) w2 with ⟨w3, log3, r3⟩
      have nE := ih (.eval ((w1.getC j).expr)) w2 hfree2 trivial
      rw [hE] at nE
      cases r3 with
      | error e =>
        dsimp only
        intro hm
        rcases List.mem_cons.1 hm with hm | hm
        · exact absurd hm (by simp)
        · exact nE v hm
      | ok u =>
        dsimp only
        intro hm
        rcases List.mem_cons.1 hm with hm | hm
        · exact absurd hm (by simp)
        · exact nE v hm
    | invalidate j =>
      simp only [run]
      by_cases hd : (w.getC j).isDirty = true
      · rw [if_pos hd]
        simp
      · rw [if_neg hd]
        set w1 := w.updC j (fun c => { c with isDirty := true }) with hw1
        have hfree1 : WrapFree k w1 := by
          rw [hw1]
          exact wrapFree_frame hfree (frameNV_updC w j _ (fun _ => rfl) (fun _ => rfl))
        rcases hN : run f (.notify ((w1.getC j).dependents)) w1 with ⟨w2, log2, r2⟩
        have nN := ih (.notify ((w1.getC j).dependents)) w1 hfree1 trivial
        rw [hN] at nN
        have hfree2 : WrapFree k w2 := by
          have hfr := run_frame f (.notify ((w1.getC j).dependents)) w1
          rw [hN] at hfr
          exact wrapFree_frame hfree1 hfr.1
        cases r2 with
        | error e =>
          intro hm
          rcases List.mem_cons.1 hm with hm | hm
          · exact absurd hm (by simp)
          · exact nN v hm
        | ok u =>
          dsimp only
          by_cases hl : (w2.getC j).listeners ≠ [] ∨ (w2.getC j).forceEager = true
          · rw [if_pos hl]
            rcases hV : run f (.readValue (.cmp j)) w2 with ⟨w3, log3, r3⟩
            have nV := ih (.readValue (.cmp j)) w2 hfree2 trivial
            rw [hV] at nV
            have hfree3 : WrapFree k w3 := by
              have hfr := run_frame f (.readValue (.cmp j)) w2
              rw [hV] at hfr
              exact wrapFree_frame hfree2 hfr.1
            cases r3 with
            | error e =>
              intro hm
              rcases List.mem_cons.1 hm with hm | hm
              · exact absurd hm (by simp)
              · rcases List.mem_append.1 hm with hm | hm
                · exact nN v hm
                · exact nV v hm
            | ok newValue =>
              dsimp only
              by_cases he : (w2.getC j).cached = newValue
              · rw [if_pos he]
                intro hm
                rcases List.mem_cons.1 hm with hm | hm
                · exact absurd hm (by simp)
                · rcases List.mem_append.1 hm with hm | hm
                  · exact nN v hm
                  · exact nV v hm
              · rw [if_neg he]
                rcases hF : run f (.fire ((w3.getC j).listeners) newValue) w3
                  with ⟨w4, log4, r4⟩
                have nF := ih (.fire ((w3.getC j).listeners) newValue) w3 hfree3
                  (hfree3.2 j)
                rw [hF] at nF
                cases r4 with
                | error e =>
                  intro hm
                  rcases List.mem_cons.1 hm with hm | hm
                  · exact absurd hm (by simp)
                  · rcases List.mem_append.1 hm with hm | hm
                    · rcases List.mem_append.1 hm with hm | hm
                      · exact nN v hm
                      · exact nV v hm
                    · exact nF v hm
                | ok u2 =>
                  intro hm
                  rcases List.mem_cons.1 hm with hm | hm
                  · exact absurd hm (by simp)
                  · rcases List.mem_append.1 hm with hm | hm
                    · rcases List.mem_append.1 hm with hm | hm
                      · exact nN v hm
                      · exact nV v hm
                    · exact nF v hm
          · rw [if_neg hl]
            intro hm
            rcases List.mem_cons.1 hm with hm | hm
            · exact absurd hm (by simp)
            · exact nN v hm
    | notify ds =>
      cases ds with
      | nil => simp [run]
      | cons d rest =>
        simp only [run]
        rcases hI : run f (.invalidate d) w with ⟨w1, log1, r1⟩
        have nI := ih (.invalidate d) w hfree trivial
        rw [hI] at nI
        have hfree1 : WrapFree k w1 := by
          have hfr := run_frame f (.invalidate d) w
          rw [hI] at hfr
          exact wrapFree_frame hfree hfr.1
        cases r1 with
        | error e => exact nI v
        | ok u =>
          dsimp only
          rcases hR : run f (.notify rest) w1 with ⟨w2, log2, r2⟩
          have nR := ih (.notify rest) w1 hfree1 trivial
          rw [hR] at nR
          intro hm
          rcases List.mem_append.1 hm with hm | hm
          · exact nI v hm
          · exact nR v hm
    | fire ls vv =>
      cases ls with
      | nil => simp [run]
      | cons l rest =>
        have hrest : Listener.wrap k ∉ rest :=
          fun hm => hfk (List.mem_cons_of_mem _ hm)
        cases l with
        | plain lid =>
          simp only [run]
          rcases hR : run f (.fire rest vv) w with ⟨w1, log1, r1⟩
          have nR := ih (.fire rest vv) w hfree hrest
          rw [hR] at nR
          intro hm
          rcases List.mem_cons.1 hm with hm | hm
          · exact absurd hm (by simp)
          · exact nR v hm
        | wrap k2 =>
          have hk2 : k2 ≠ k := by
            intro he
            subst he
            exact hfk (by simp)
          simp only [run]
          by_cases hc : (w.getObserver k2).hasCallback = true
          · rw [if_pos hc]
            rcases hV : run f (.readValue ((w.getObserver k2).target)) w
              with ⟨w1, log1, r1⟩
            have nV := ih (.readValue ((w.getObserver k2).target)) w hfree trivial
            rw [hV] at nV
            have hfree1 : WrapFree k w1 := by
              have hfr := run_frame f (.readValue ((w.getObserver k2).target)) w
              rw [hV] at hfr
              exact wrapFree_frame hfree hfr.1
            cases r1 with
            | error e => exact nV v
            | ok v1 =>
              dsimp only
              rcases hR : run f (.fire rest vv) w1 with ⟨w2, log2, r2⟩
              have nR := ih (.fire rest vv) w1 hfree1 hrest
              rw [hR] at nR
              intro hm
              rcases List.mem_append.1 hm with hm | hm
              · exact nV v hm
              · rcases List.mem_cons.1 hm with hm | hm
                · exact hk2 (by injection hm with h1 h2; exact h1.symm)
                · exact nR v hm
          · rw [if_neg hc]
            exact ih (.fire rest vv) w hfree hrest v
    | setState i vv =>
      simp only [run]
      by_cases he : (w.getS i).value = vv
      · rw [if_pos he]
        simp
      · rw [if_neg he]
        set w1 := w.updS i (fun s => { s with value := vv }) with hw1
        have hfree1 : WrapFree k w1 := by
          rw [hw1]
          exact wrapFree_frame hfree (frameNV_updS w i _ (fun _ => rfl))
        rcases hN : run f (.notify ((w1.getS i).dependents)) w1 with ⟨w2, log2, r2⟩
        have nN := ih (.notify ((w1.getS i).dependents)) w1 hfree1 trivial
        rw [hN] at nN
        have hfree2 : WrapFree k w2 := by
          have hfr := run_frame f (.notify ((w1.getS i).dependents)) w1
          rw [hN] at hfr
          exact wrapFree_frame hfree1 hfr.1
        cases r2 with
        | error e =>
          intro hm
          rcases List.mem_cons.1 hm with hm | hm
          · exact absurd hm (by simp)
          · exact nN v hm
        | ok u =>
          dsimp only
          rcases hF : run f (.fire ((w2.getS i).listeners) ((w2.getS i).value)) w2
            with ⟨w3, log3, r3⟩
          have nF := ih (.fire ((w2.getS i).listeners) ((w2.getS i).value)) w2
            hfree2 (hfree2.1 i)
          rw [hF] at nF
          intro hm
          rcases List.mem_cons.1 hm with hm | hm
          · exact absurd hm (by simp)
          · rcases List.mem_append.1 hm with hm | hm
            · exact nN v hm
            · exact nF v hm

theorem disposeObs_of_disposed (k : Nat) (w : World)
    (h : (w.getObserver k).isDisposed = true) : disposeObs k w = w := by
  unfold disposeObs
  rw [if_pos h]

theorem disposeObs_not_disposed (k : Nat) (w : World)
    (h : (w.getObserver k).isDisposed = false) :
    disposeObs k w
      = (if (w.getObserver k).hasCleanup then
           removeListener (w.getObserver k).target (.wrap k) w
         else w).updObserver k disposeMark := by
  unfold disposeObs
  rw [if_neg (by simp [h])]

theorem disposeObs_idem (k : Nat) (w : World) :
    disposeObs k (disposeObs k w) = disposeObs k w := by
  by_cases hd : (w.getObserver k).isDisposed = true
  · rw [disposeObs_of_disposed k w hd, disposeObs_of_disposed k w hd]
  · have hdb : (w.getObserver k).isDisposed = false := by
      revert hd
      cases (w.getObserver k).isDisposed <;> simp
    rcases lt_or_ge k w.observers.length with hk | hk
    · apply disposeObs_of_disposed
      rw [disposeObs_not_disposed k w hdb]
      have hobs1 : (if (w.getObserver k).hasCleanup then
          removeListener (w.getObserver k).target (.wrap k) w
        else w).observers = w.observers := by
        split
        · exact observers_removeListener _ _ _
        · rfl
      have hk1 : k < (if (w.getObserver k).hasCleanup then
          removeListener (w.getObserver k).target (.wrap k) w
        else w).observers.length := by
        rw [hobs1]
        exact hk
      rw [getObserver_updObserver_self _ k _ hk1]
      rfl
    · rw [getObserver_default_of_le w k hk] at hdb
      exact absurd hdb (by decide)

/-- Claim C9: disposing a subscription handle twice has the same observable
effect as disposing it once (the worlds are literally equal), and once a
handle produced by `watch` on a previously wrapper-free world is disposed,
no interpreter run whatsoever can invoke its wrapped callback again. -/
theorem C9_dispose_idempotent_final :
    (∀ (k : Nat) (w : World), disposeObs k (disposeObs k w) = disposeObs k w)
    ∧ (∀ (g : Nat) (target : Obs) (w w₁ : World) (log₁ : List Event) (k : Nat),
        WrapFree w.observers.length w →
        observerWatch g target w = (w₁, log₁, .ok k) →
        ∀ (f : Nat) (c : Call), fireOK k c →
        ∀ v, Event.cbCalled k v ∉ (run f c (disposeObs k w₁)).2.1) := by
  refine ⟨disposeObs_idem, ?_⟩
  intro g target w w₁ log₁ k hfree hw f c hfk v
  unfold observerWatch at hw
  rcases hv : run g (.readValue target) w with ⟨wv, logv, rv⟩
  rw [hv] at hw
  cases rv with
  | error e => exact absurd hw (by simp)
  | ok v0 =>
    dsimp only at hw
    injection hw with h1 h2
    injection h2 with h2 h3
    injection h3 with h3
    subst h3
    have hfr := run_frame g (.readValue target) w
    rw [hv] at hfr
    have hobs : wv.observers = w.observers := hfr.1.obs
    have hfreev : WrapFree wv.observers.length wv := by
      rw [hobs]
      exact wrapFree_frame hfree hfr.1
    set wobs : World :=
      { wv with observers := wv.observers ++ [⟨target, true, true, false⟩] } with hwobs
    have hfreeo : WrapFree wv.observers.length wobs := ⟨hfreev.1, hfreev.2⟩
    rw [← h1]
    have hget : (addListener target (.wrap wv.observers.length) wobs).getObserver
        wv.observers.length = ⟨target, true, true, false⟩ := by
      have hobs1 : (addListener target (.wrap wv.observers.length) wobs).observers
          = wv.observers ++ [⟨target, true, true, false⟩] :=
        observers_addListener _ _ _
      simp [World.getObserver, hobs1, List.getD, List.getElem?_concat_length]
    have hdisp : disposeObs wv.observers.length
        (addListener target (.wrap wv.observers.length) wobs)
        = (removeListener target (.wrap wv.observers.length)
            (addListener target (.wrap wv.observers.length) wobs)).updObserver
            wv.observers.length disposeMark := by
      rw [disposeObs_not_disposed _ _ (by rw [hget])]
      rw [hget]
      rfl
    rw [hdisp]
    have hra := noListener_remove_add target (.wrap wv.observers.length) wobs hfreeo
    have hfree_final : WrapFree wv.observers.length
        ((removeListener target (.wrap wv.observers.length)
            (addListener target (.wrap wv.observers.length) wobs)).updObserver
            wv.observers.length disposeMark) :=
      ⟨fun i => hra.1 i, fun j => hra.2 j⟩
    exact run_no_cb _ f c _ hfree_final hfk v

/-- Checking wrapper-freeness only needs the cells actually present. -/
theorem wrapFree_of_lists (k : Nat) (w : World)
    (h1 : ∀ s ∈ w.states, Listener.wrap k ∉ s.listeners)
    (h2 : ∀ c ∈ w.comps, Listener.wrap k ∉ c.listeners) : WrapFree k w := by
  constructor
  · intro i
    rcases lt_or_ge i w.states.length with hb | hb
    · have heq : w.getS i = w.states[i] := by
        simp [World.getS, List.getD, List.getElem?_eq_getElem hb]
      rw [heq]
      exact h1 _ (List.getElem_mem hb)
    · rw [getS_default_of_le w i hb]
      simp [defaultS]
  · intro j
    rcases lt_or_ge j w.comps.length with hb | hb
    · have heq : w.getC j = w.comps[j] := by
        simp [World.getC, List.getD, List.getElem?_eq_getElem hb]
      rw [heq]
      exact h2 _ (List.getElem_mem hb)
    · rw [getC_default_of_le w j hb]
      simp [defaultC]

/-- Initial world for the C9 witness: one source with value 1 and nothing
else. -/
def c9w0 : World := ⟨[⟨1, [], []⟩], [], [], [], []⟩

/-- The world after `watch(s, cb)` on `c9w0`. -/
def c9wit1 : World := ⟨[⟨1, [], [.wrap 0]⟩], [], [⟨.src 0, true, true, false⟩], [], []⟩

/-!
### Claim C7 — no-op conditions for collection mutators (amended part)
-/

/-- Whether a list event is a whole-list change notification. -/
def isChangedEvent {α : Type} : LEvent α → Bool
  | .changed _ _ => true
  | _ => false

/-- Claim C7, amended: `remove` of an absent item, `removeAt` and `update`
with an out-of-bounds index, and `clear` on an empty collection leave the
sequence unchanged and emit no notification of any kind — but `replace` is
never a membership-conditioned no-op: it always emits exactly one whole-list
change notification per whole-list listener (besides the per-element events
for the respective listeners), even when the new items match the old ones. -/
theorem C7_mutator_no_op_amended :
    (∀ (w : RList Int) (item : Int), item ∉ w.items →
      listRemove w item = (w, [], false))
    ∧ (∀ (w : RList Int) (i : Int), ¬(0 ≤ i ∧ i < w.items.length) →
        listRemoveAt w i = (w, [], none))
    ∧ (∀ (w : RList Int) (i : Int) (x : Int), ¬(0 ≤ i ∧ i < w.items.length) →
        listUpdate w i x = (w, [], false))
    ∧ (∀ w : RList Int, w.items = [] → listClear w = (w, []))
    ∧ (∀ (w : RList Int) (items : List Int),
        (listReplace w items).2.countP isChangedEvent = w.listeners.length) := by
  refine ⟨?_, ?_, ?_, ?_, ?_⟩
  · intro w item hni
    have hnone : w.items.findIdx? (fun x => x = item) = none := by
      rw [List.findIdx?_eq_none_iff]
      intro x hx
      simp only [decide_eq_false_iff_not]
      exact fun he => hni (he ▸ hx)
    simp [listRemove, hnone]
  · intro w i h
    simp [listRemoveAt, h]
  · intro w i x h
    simp [listUpdate, h]
  · intro w h
    simp [listClear, h]
  · intro w items
    unfold listReplace
    simp only [List.countP_append]
    have hrem : (if w.removeListeners ≠ [] then
        (w.items.enum.reverse).flatMap (fun p => notifyItemRemoved w p.2 p.1)
      else []).countP isChangedEvent = 0 := by
      split
      · rename_i hg
        rw [List.countP_eq_zero]
        intro e he
        rw [List.mem_flatMap] at he
        obtain ⟨p, _, he⟩ := he
        unfold notifyItemRemoved at he
        rw [if_pos hg] at he
        rw [List.mem_map] at he
        obtain ⟨lid, _, he⟩ := he
        rw [← he]
        simp [isChangedEvent]
      · simp
    have hadd : (if ({ w with items := items } : RList Int).addListeners ≠ [] then
        ({ w with items := items } : RList Int).items.enum.flatMap
          (fun p => notifyItemAdded { w with items := items } p.2 p.1)
      else []).countP isChangedEvent = 0 := by
      split
      · rename_i hg
        rw [List.countP_eq_zero]
        intro e he
        rw [List.mem_flatMap] at he
        obtain ⟨p, _, he⟩ := he
        unfold notifyItemAdded at he
        rw [if_pos hg] at he
        rw [List.mem_map] at he
        obtain ⟨lid, _, he⟩ := he
        rw [← he]
        simp [isChangedEvent]
      · simp
    have hchg : (onItemsChanged { w with items := items }).countP isChangedEvent
        = w.listeners.length := by
      unfold onItemsChanged
      rw [List.countP_append]
      have hz : (if ({ w with items := items } : RList Int).dependents ≠ [] then
          ({ w with items := items } : RList Int).dependents.map
            (fun d => (LEvent.invalidated d : LEvent Int))
        else []).countP isChangedEvent = 0 := by
        split
        · rw [List.countP_eq_zero]
          intro e he
          rw [List.mem_map] at he
          obtain ⟨d, _, he⟩ := he
          rw [← he]
          simp [isChangedEvent]
        · simp
      rw [hz]
      show (0 : Nat) + _ = _
      rw [Nat.zero_add]
      split
      · rw [List.countP_map]
        show List.countP (fun _ => true) w.listeners = w.listeners.length
        rw [List.countP_true]
      · rename_i hl
        show ([] : List (LEvent Int)).countP isChangedEvent = w.listeners.length
        simp at hl
        simp [hl]
    rw [hrem, hadd, hchg]
    simp

/-- Witness for the amended C7 at concrete inputs. -/
theorem C7_mutator_no_op_amended_witness :
    listRemove (⟨[1, 2], [], [], [], []⟩ : RList Int) 3 = (⟨[1, 2], [], [], [], []⟩, [], false)
    ∧ listRemoveAt (⟨[1, 2], [], [], [], []⟩ : RList Int) 5 = (⟨[1, 2], [], [], [], []⟩, [], none)
    ∧ listUpdate (⟨[1, 2], [], [], [], []⟩ : RList Int) (-1) 9
        = (⟨[1, 2], [], [], [], []⟩, [], false)
    ∧ listClear (⟨[], [], [7], [8], [9]⟩ : RList Int) = (⟨[], [], [7], [8], [9]⟩, [])
    ∧ (listReplace (⟨[0], [], [1], [2], [3]⟩ : RList Int) [0]).2.countP isChangedEvent
        = (⟨[0], [], [1], [2], [3]⟩ : RList Int).listeners.length :=
  ⟨C7_mutator_no_op_amended.1 _ 3 (by decide),
   C7_mutator_no_op_amended.2.1 _ 5 (by decide),
   C7_mutator_no_op_amended.2.2.1 _ (-1) 9 (by decide),
   C7_mutator_no_op_amended.2.2.2.1 _ rfl,
   C7_mutator_no_op_amended.2.2.2.2 _ [0]⟩

/-- Witness for C9 at a concrete input. -/
theorem C9_dispose_idempotent_final_witness :
    disposeObs 0 (disposeObs 0 c9wit1) = disposeObs 0 c9wit1
    ∧ ∀ v, Event.cbCalled 0 v ∉ (run 3 (.setState 0 5) (disposeObs 0 c9wit1)).2.1 :=
  ⟨C9_dispose_idempotent_final.1 0 c9wit1,
   fun v => C9_dispose_idempotent_final.2 3 (.src 0) c9w0 c9wit1
     [.cbCalled 0 1] 0
     (wrapFree_of_lists 0 c9w0 (by decide) (by decide))
     (by decide) 3 (.setState 0 5) trivial v⟩

end ReactorJS
